import Mathlib

/-!
# trace-db: the binary trace reader (`read-trace.cpp`)

A shallow embedding of `start_reading` and of the reader functions
`read_tag`, `read_id`, `read_var_info`, `read_buffer_size` and
`read_trace_point`, followed by theorems about them.

Modelling conventions.

* The input `FILE*` is a finite list of unread bytes together with the
  stream's end-of-file indicator.  Reads never fail for any reason other
  than running out of bytes.  Allocation of a blob value and growth of a
  record buffer never fail; the allocations of `start_reading` may.
* The target is x86-64 System V: integers are little-endian, plain `char`
  is a signed 8-bit type, and a value of enumeration type is promoted to
  `int` where it is compared.
* C arrays held as pointer and element count (`names`/`n_names`,
  `types`/`n_types`, the three record buffers and their capacities) are
  lists; the count is the length of the list.  A buffer cell that has been
  allocated but never written is `none`.  An entry of `names` is the C
  string its pointer denotes.
* `read-trace.h` and `utils.h` are not part of the source tree.  The
  enumerators and the buffer macro are modelled from the specification;
  `sizeof(trace_buffer_size)` is a parameter `sz`, `sizeof(type_description)`
  and the layout of that record are parameters `tsz` and `decode` of the
  functions that depend on them.  The width of the counters of
  `trace_point` is declared in the missing header; they are unbounded
  naturals here.
-/

namespace TraceDB

/-! ## Bytes and integer representations -/

/-- One byte of the trace file. -/
abbrev Byte := Fin 256

/-- The unsigned integer whose little-endian object representation is the
given byte sequence. -/
def le_value : List Byte → Nat
  | [] => 0
  | b :: bs => b.val + 256 * le_value bs

/-- The signed integer denoted by the low `bits` bits of `n` in two's
complement: what a C object of type `intN_t` holds after `bits / 8` bytes
were copied into it. -/
def to_signed (bits : Nat) (n : Nat) : Int :=
  if n % 2 ^ bits < 2 ^ (bits - 1) then ((n % 2 ^ bits : Nat) : Int)
  else ((n % 2 ^ bits : Nat) : Int) - ((2 ^ bits : Nat) : Int)

/-- Conversion of an `int` to plain `char` (signed, 8 bits wide). -/
def to_char (i : Int) : Int :=
  if i % 256 < 128 then i % 256 else i % 256 - 256

/-! ## Declarations of the missing headers -/

/-- Modelled from the spec: `enum trace_entry_tag` of `read-trace.h`; the
enumerators are numbered from zero in the order the specification lists
them, with the `INVALID_TAG` sentinel last. -/
def END_ENTRY : Int := 0

/-- Modelled from the spec: second enumerator of `enum trace_entry_tag`. -/
def STATEMENT_ID : Int := 1

/-- Modelled from the spec: third enumerator of `enum trace_entry_tag`. -/
def VARIABLE : Int := 2

/-- Modelled from the spec: fourth enumerator of `enum trace_entry_tag`. -/
def BUFFER_SIZE : Int := 3

/-- Modelled from the spec: fifth enumerator of `enum trace_entry_tag`. -/
def AUXILIARY : Int := 4

/-- Modelled from the spec: the sentinel closing `enum trace_entry_tag`. -/
def INVALID_TAG : Int := 5

/-- Modelled from the spec: `enum type_format` of `read-trace.h`; the
enumerators are numbered from zero in the order the specification lists
them, with the `INVALID_FORMAT` sentinel last. -/
def SIGNED : Nat := 0

/-- Modelled from the spec: second enumerator of `enum type_format`. -/
def UNSIGNED : Nat := 1

/-- Modelled from the spec: third enumerator of `enum type_format`. -/
def FLOAT : Nat := 2

/-- Modelled from the spec: fourth enumerator of `enum type_format`. -/
def POINTER : Nat := 3

/-- Modelled from the spec: fifth enumerator of `enum type_format`. -/
def BLOB : Nat := 4

/-- Modelled from the spec: the sentinel closing `enum type_format`. -/
def INVALID_FORMAT : Nat := 5

/-- Modelled from the spec: `enum trace_error` of `read-trace.h`, the three
outcomes of a read. -/
inductive trace_error where
  | TRACE_OK
  | TRACE_EOF
  | TRACE_ERROR
deriving DecidableEq, Repr

open trace_error

/-- Modelled from the spec: `type_description` of `read-trace.h`, one entry
of the type dictionary. -/
structure type_description where
  name_index : Nat
  format : Nat
  size : Nat
deriving DecidableEq, Repr, Inhabited

/-- Modelled from the spec: the `value` union of `trace_var_info`.  The
member that was written last is recorded: `u` the 64-bit unsigned slot, `s`
the 64-bit signed slot, `ptr` the contents of the heap block the pointer
refers to. -/
inductive trace_value where
  | u (bits : Nat)
  | s (v : Int)
  | ptr (blob : List Byte)
deriving DecidableEq, Repr

/-- Modelled from the spec: `trace_var_info` of `read-trace.h`. -/
structure trace_var_info where
  name_index : Nat
  type_index : Nat
  size : Nat
  has_buffer_size : Nat
  value : trace_value
deriving DecidableEq, Repr

/-- Modelled from the spec: `trace_buffer_size` of `read-trace.h`, a
fixed-size record the reader copies verbatim; held as its raw bytes. -/
abbrev trace_buffer_size := List Byte

/-- Modelled from the spec: `trace_point` of `read-trace.h`.  The three
pointers alias the session's buffers; each is recorded as the contents of
the buffer at the moment the pointer is stored. -/
structure trace_point where
  statement : Nat
  sizes : List (Option trace_buffer_size)
  n_sizes : Nat
  vars : List (Option trace_var_info)
  n_vars : Nat
  aux : List (Option Nat)
  n_aux : Nat
deriving DecidableEq, Repr

/-- Modelled from the spec: `ENSURE_BUFFER_SIZE` of `utils.h`.  When the
needed length exceeds the capacity, the capacity becomes the larger of twice
the old capacity and the needed length; existing cells are preserved and the
new cells are unwritten. -/
def ENSURE_BUFFER_SIZE {α : Type} (buffer : List (Option α)) (needed : Nat) :
    List (Option α) :=
  if buffer.length < needed then
    buffer ++ List.replicate (max (2 * buffer.length) needed - buffer.length) none
  else buffer

/-! ## The C stream -/

/-- A `FILE*` opened for reading: the bytes not yet consumed and the
end-of-file indicator. -/
structure FILE where
  data : List Byte
  eof : Bool
deriving DecidableEq, Repr

/-- The value of the macro `EOF`. -/
def EOF : Int := -1

/-- The call `fgetc(f)`: the next byte as an `unsigned char` converted to
`int`, or `EOF` with the end-of-file indicator set. -/
def fgetc (f : FILE) : Int × FILE :=
  match f.data with
  | [] => (EOF, { f with eof := true })
  | b :: rest => ((b.val : Int), { f with data := rest })

/-- The call `fread(ptr, size, nmemb, f)`: the bytes stored through `ptr`,
the number of complete items read, and the stream afterwards.  A request of
zero bytes returns zero and leaves the stream alone; a request for more than
what is left consumes the rest and sets the end-of-file indicator. -/
def fread (size nmemb : Nat) (f : FILE) : List Byte × Nat × FILE :=
  if size = 0 ∨ nmemb = 0 then ([], 0, f)
  else if size * nmemb ≤ f.data.length then
    (f.data.take (size * nmemb), nmemb, { f with data := f.data.drop (size * nmemb) })
  else (f.data, f.data.length / size, { data := [], eof := true })

/-- The call `feof(f)`. -/
def feof (f : FILE) : Bool := f.eof

/-! ## The session -/

/-- The reader's session, `trace_read_state`. -/
structure trace_read_state where
  file : FILE
  names : List (List Byte)
  types : List type_description
  size_buffer : List (Option trace_buffer_size)
  var_buffer : List (Option trace_var_info)
  aux_buffer : List (Option Nat)
  error_code : trace_error
deriving DecidableEq, Repr

/-- The field `n_names`: the number of entries of `names`. -/
def trace_read_state.n_names (state : trace_read_state) : Nat := state.names.length

/-- The field `n_types`: the number of entries of `types`. -/
def trace_read_state.n_types (state : trace_read_state) : Nat := state.types.length

/-- The field `n_sizes`: the allocated capacity of `size_buffer`. -/
def trace_read_state.n_sizes (state : trace_read_state) : Nat := state.size_buffer.length

/-- The field `n_vars`: the allocated capacity of `var_buffer`. -/
def trace_read_state.n_vars (state : trace_read_state) : Nat := state.var_buffer.length

/-- The field `n_aux`: the allocated capacity of `aux_buffer`. -/
def trace_read_state.n_aux (state : trace_read_state) : Nat := state.aux_buffer.length

/-- The macro `FREAD_CHECK(ptr, size, nmemb, state)`.  The result is `none`
when the macro jumps to the `error` label, after setting `error_code` from
the end-of-file indicator; otherwise it is the bytes stored through `ptr`. -/
def FREAD_CHECK (size nmemb : Nat) (state : trace_read_state) :
    Option (List Byte) × trace_read_state :=
  if (fread size nmemb state.file).2.1 ≠ nmemb then
    (none, { state with
      file := (fread size nmemb state.file).2.2
      error_code := if feof (fread size nmemb state.file).2.2 then TRACE_EOF else TRACE_ERROR })
  else
    (some (fread size nmemb state.file).1, { state with file := (fread size nmemb state.file).2.2 })

/-! ## The reader functions -/

/-- The function `read_tag`: the tag is the `char` that `fgetc` produced. -/
def read_tag (state : trace_read_state) : Int × trace_read_state :=
  let c := to_char (fgetc state.file).1
  let state := { state with file := (fgetc state.file).2 }
  if c = EOF then (c, { state with error_code := TRACE_EOF })
  else if c ≥ INVALID_TAG then (c, { state with error_code := TRACE_ERROR })
  else (c, state)

/-- The function `read_id`. -/
def read_id (state : trace_read_state) : Nat × trace_read_state :=
  match FREAD_CHECK 8 1 state with
  | (some id, state) => (le_value id, state)
  | (none, state) => (0, state)

/-- One arm of the width switch of `read_var_info` for a `SIGNED` value: an
`intN_t tmp` of `width` bytes is read and widened into `value.s`. -/
def read_signed (width : Nat) (result : trace_var_info) (state : trace_read_state) :
    trace_var_info × trace_read_state :=
  match FREAD_CHECK result.size 1 state with
  | (none, state) => (result, state)
  | (some tmp, state) =>
    ({ result with value := trace_value.s (to_signed (8 * width) (le_value tmp)) }, state)

/-- The tail of the `BLOB` arm of `read_var_info`, from `result.size = size`
on: the block is allocated and filled. -/
def read_blob (size : Nat) (result : trace_var_info) (state : trace_read_state) :
    trace_var_info × trace_read_state :=
  match FREAD_CHECK size 1 state with
  | (none, state) => ({ result with size := size, value := trace_value.ptr [] }, state)
  | (some blob, state) => ({ result with size := size, value := trace_value.ptr blob }, state)

/-- The `switch (type.format)` statement of `read_var_info`, entered with
`result.size = type.size` and `result.value.u = 0`.  A value wider than the
8-byte slot overruns it in C; the slot is given the low 8 bytes. -/
def read_var_value (type : type_description) (result : trace_var_info)
    (state : trace_read_state) : trace_var_info × trace_read_state :=
  if type.format = SIGNED then
    if result.size = 1 then read_signed 1 result state
    else if result.size = 2 then read_signed 2 result state
    else if result.size = 4 then read_signed 4 result state
    else if result.size = 8 then read_signed 8 result state
    else (result, state)
  else if type.format = UNSIGNED ∨ type.format = FLOAT ∨ type.format = POINTER then
    match FREAD_CHECK result.size 1 state with
    | (none, state) => (result, state)
    | (some bits, state) =>
      ({ result with value := trace_value.u (le_value bits % 2 ^ 64) }, state)
  else if type.format = BLOB then
    if result.size % 2 ^ 32 = 0 then
      match FREAD_CHECK 4 1 state with
      | (none, state) => (result, state)
      | (some size, state) => read_blob (le_value size) result state
    else read_blob (result.size % 2 ^ 32) result state
  else (result, state)

/-- The function `read_var_info`.  Fields of `result` that the C code leaves
indeterminate are shown as zero. -/
def read_var_info (state : trace_read_state) : trace_var_info × trace_read_state :=
  let result : trace_var_info :=
    { name_index := 0, type_index := 0, size := 0, has_buffer_size := 0,
      value := trace_value.u 0 }
  match FREAD_CHECK 4 1 state with
  | (none, state) => (result, state)
  | (some name_index, state) =>
    let result := { result with name_index := le_value name_index }
    match FREAD_CHECK 4 1 state with
    | (none, state) => (result, state)
    | (some type_index, state) =>
      let result := { result with type_index := le_value type_index }
      if result.name_index ≥ state.n_names ∨ result.type_index ≥ state.n_types then
        (result, { state with error_code := TRACE_ERROR })
      else
        let type := state.types.getD result.type_index default
        read_var_value type { result with size := type.size, value := trace_value.u 0 } state

/-- The function `read_buffer_size`; `sz` is `sizeof(trace_buffer_size)`. -/
def read_buffer_size (sz : Nat) (state : trace_read_state) :
    trace_buffer_size × trace_read_state :=
  match FREAD_CHECK sz 1 state with
  | (none, state) => ([], state)
  | (some result, state) => (result, state)

/-- The loop of `read_trace_point`, one iteration per unit of fuel.
`result` is the local accumulator, `result_ptr` the current contents of
`*result_ptr`.  The outcome is the returned code, the session and the
contents of `*result_ptr` on return; `none` means the fuel ran out before
the loop was left. -/
def read_trace_point_loop (sz : Nat) :
    Nat → trace_read_state → trace_point → trace_point →
      Option (trace_error × trace_read_state × trace_point)
  | 0, _, _, _ => none
  | fuel + 1, state, result, result_ptr =>
    let tag := (read_tag state).1
    let state := (read_tag state).2
    if state.error_code ≠ TRACE_OK then some (state.error_code, state, result_ptr)
    else if tag = END_ENTRY then
      some (state.error_code, state,
        { result with
          vars := state.var_buffer, sizes := state.size_buffer, aux := state.aux_buffer })
    else if tag = STATEMENT_ID then
      let id := (read_id state).1
      let state := (read_id state).2
      if state.error_code ≠ TRACE_OK then some (state.error_code, state, result_ptr)
      else read_trace_point_loop sz fuel state { result with statement := id } result_ptr
    else if tag = VARIABLE then
      let info := (read_var_info state).1
      let state := (read_var_info state).2
      if state.error_code ≠ TRACE_OK then some (state.error_code, state, result_ptr)
      else
        let result := { result with n_vars := result.n_vars + 1 }
        let state := { state with
          var_buffer :=
            (ENSURE_BUFFER_SIZE state.var_buffer result.n_vars).set (result.n_vars - 1)
              (some info) }
        read_trace_point_loop sz fuel state result result_ptr
    else if tag = BUFFER_SIZE then
      let info := (read_buffer_size sz state).1
      let state := (read_buffer_size sz state).2
      if state.error_code ≠ TRACE_OK then some (state.error_code, state, result_ptr)
      else
        let result := { result with n_sizes := result.n_sizes + 1 }
        let state := { state with
          size_buffer :=
            (ENSURE_BUFFER_SIZE state.size_buffer result.n_sizes).set (result.n_sizes - 1)
              (some info) }
        read_trace_point_loop sz fuel state result result_ptr
    else if tag = AUXILIARY then
      match FREAD_CHECK 8 1 state with
      | (none, state) => some (state.error_code, state, result_ptr)
      | (some value, state) =>
        let result := { result with n_aux := result.n_aux + 1 }
        let state := { state with
          aux_buffer :=
            (ENSURE_BUFFER_SIZE state.aux_buffer result.n_aux).set (result.n_aux - 1)
              (some (le_value value)) }
        read_trace_point_loop sz fuel state result result_ptr
    else some (state.error_code, state, result_ptr)

/-- The function `read_trace_point`.  Every iteration of its loop that does
not leave it consumes the tag byte, so one more iteration than there are
unread bytes is enough fuel. -/
def read_trace_point (sz : Nat) (state : trace_read_state) (result_ptr : trace_point) :
    Option (trace_error × trace_read_state × trace_point) :=
  read_trace_point_loop sz (state.file.data.length + 1) state
    { statement := 0, sizes := [], n_sizes := 0, vars := [], n_vars := 0, aux := [], n_aux := 0 }
    result_ptr

/-! ## Opening a session -/

/-- The outcome of a call of `start_reading`: the call never comes back
because its first scan does not end (`no_return`), the process crashes on a
store through a null pointer (`crash`), the call returns `NULL` (`null`), or
it returns a session. -/
inductive start_result where
  | no_return
  | crash
  | null
  | session (state : trace_read_state)
deriving DecidableEq, Repr

/-- The first scan of `start_reading`,
`for (i = 0; i < n_chars; i++) if (buf[i] == 0) n_strings++;`, one iteration
per unit of fuel.  The counters `i` and `n_strings` are `uint32_t` and wrap,
`n_chars` is `uint64_t`; `none` means the fuel ran out before the loop was
left. -/
def count_strings_loop (buf : List Byte) (n_chars : Nat) : Nat → Nat → Nat → Option Nat
  | 0, _, _ => none
  | fuel + 1, i, n_strings =>
    if i < n_chars then
      count_strings_loop buf n_chars fuel ((i + 1) % 2 ^ 32)
        (if buf.getD i 0 = 0 then (n_strings + 1) % 2 ^ 32 else n_strings)
    else some n_strings

/-- The inner loop of the second scan, `while (*buf != 0) buf++; buf++;`,
on the bytes from `buf` to the end of the blob: the characters passed and
the bytes after the terminator, or `none` when the scan runs off the end of
the blob. -/
def scan_name : List Byte → Option (List Byte × List Byte)
  | [] => none
  | b :: bs =>
    if b = 0 then some ([], bs)
    else
      match scan_name bs with
      | none => none
      | some (name, rest) => some (b :: name, rest)

/-- The second scan of `start_reading`, `n_strings` iterations of
`names[i] = buf; while (*buf != 0) buf++; buf++;`.  Each entry of `names` is
recorded as the C string its pointer denotes. -/
def scan_names : Nat → List Byte → Option (List (List Byte))
  | 0, _ => some []
  | n + 1, buf =>
    match scan_name buf with
    | none => none
    | some (name, rest) =>
      match scan_names n rest with
      | none => none
      | some names => some (name :: names)

/-- The array of `n_types` descriptors that `fread` stored, read off its
bytes; `tsz` is `sizeof(type_description)` and `decode` the layout of one
record, both declared in the missing header. -/
def decode_types (tsz : Nat) (decode : List Byte → type_description) :
    Nat → List Byte → List type_description
  | 0, _ => []
  | n + 1, bytes => decode (bytes.take tsz) :: decode_types tsz decode n (bytes.drop tsz)

/-- The validation loop of `start_reading`: `false` when it jumps to the
`error` label.  A descriptor's `format` is the 32-bit pattern stored in the
field.  Both operands of `types[i].format >= INVALID_FORMAT` have the
enumeration type and are promoted to `int`, so the pattern is compared as a
signed integer; the two name counts are unsigned. -/
def validate_types (n_names : Nat) : List type_description → Bool
  | [] => true
  | t :: ts =>
    if to_signed 32 t.format ≥ ((INVALID_FORMAT : Nat) : Int) ∨ t.name_index ≥ n_names then false
    else validate_types n_names ts

/-- The function `start_reading`.  `file` is what `open_with_timeout`
returned, `none` for a null pointer; `tsz` and `decode` are the size and the
layout of `type_description`, `ssz` is `sizeof(trace_read_state)`.
`alloc n` tells whether the C library grants a request of `n` bytes; the
source tests no allocation, so a refused one leaves a null pointer, and the
first store through it crashes: the store to `state->file`, the bytes
`fread` copies into the blob or into the type table when the stream still
has some, the store to `names[0]`.  The first scan is given one more
iteration than `n_chars`; it needs more only when it never ends.  A pointer
is 8 bytes wide. -/
def start_reading (alloc : Nat → Bool) (ssz tsz : Nat)
    (decode : List Byte → type_description) (file : Option FILE) : start_result :=
  if alloc ssz = false then start_result.crash
  else
    match file with
    | none => start_result.null
    | some file =>
      let state : trace_read_state :=
        { file := file, names := [], types := [], size_buffer := [], var_buffer := [],
          aux_buffer := [], error_code := TRACE_OK }
      match FREAD_CHECK 8 1 state with
      | (none, _) => start_result.null
      | (some n_chars, state) =>
        if alloc (le_value n_chars) = false ∧ le_value n_chars ≠ 0 ∧ state.file.data ≠ [] then
          start_result.crash
        else if (fread 1 (le_value n_chars) state.file).2.1 ≠ le_value n_chars then
          start_result.null
        else
          let buf := (fread 1 (le_value n_chars) state.file).1
          let state := { state with file := (fread 1 (le_value n_chars) state.file).2.2 }
          match count_strings_loop buf (le_value n_chars) (le_value n_chars + 1) 0 0 with
          | none => start_result.no_return
          | some n_strings =>
            if alloc (8 * n_strings) = false ∧ n_strings ≠ 0 then start_result.crash
            else
              match scan_names n_strings buf with
              | none => start_result.no_return
              | some names =>
                let state := { state with names := names }
                match FREAD_CHECK 4 1 state with
                | (none, _) => start_result.null
                | (some n_types, state) =>
                  if alloc (tsz * le_value n_types) = false ∧ tsz * le_value n_types ≠ 0 ∧
                      state.file.data ≠ [] then
                    start_result.crash
                  else
                    match FREAD_CHECK tsz (le_value n_types) state with
                    | (none, _) => start_result.null
                    | (some types, state) =>
                      let state :=
                        { state with
                          types := decode_types tsz decode (le_value n_types) types }
                      if validate_types state.n_names state.types then
                        start_result.session { state with error_code := TRACE_OK }
                      else start_result.null

/-! ## The writer's side: encodings used to state the properties -/

/-- The `w` low-order bytes of `n`, least significant first: the object
representation of a `w`-byte unsigned integer. -/
def le_bytes : Nat → Nat → List Byte
  | 0, _ => []
  | w + 1, n => ⟨n % 256, Nat.mod_lt n (by decide)⟩ :: le_bytes w (n / 256)

/-- The `w`-byte two's-complement encoding of the integer `v`. -/
def twos_complement (w : Nat) (v : Int) : List Byte :=
  le_bytes w (v % ((256 ^ w : Nat) : Int)).toNat

/-- The session with the unread input replaced by `rest`; everything else,
the end-of-file indicator included, is as in `state`. -/
def set_data (state : trace_read_state) (rest : List Byte) : trace_read_state :=
  { state with file := { state.file with data := rest } }

/-- The byte that carries the tag `t` in the stream. -/
def tag_byte (t : Int) : Byte := ⟨t.toNat % 256, Nat.mod_lt _ (by decide)⟩

/-- One entry of a trace point as the writer emits it, before the closing
`END_ENTRY`: a statement id, a variable with its two dictionary indices and
its value, a buffer-size record, or an auxiliary value. -/
inductive Entry where
  | statement (id : Nat)
  | var (name_index type_index : Nat) (value : trace_value)
  | buffer_size (record : List Byte)
  | auxiliary (value : Nat)
deriving DecidableEq, Repr

/-- The bytes of a variable's value under the descriptor `type`: a signed
integer in two's complement, an unsigned pattern least significant byte
first, a blob verbatim, preceded by its 4-byte length when the descriptor
leaves the size open. -/
def encode_value (type : type_description) : trace_value → List Byte
  | trace_value.s v => twos_complement type.size v
  | trace_value.u bits => le_bytes type.size bits
  | trace_value.ptr blob =>
    if type.size = 0 then le_bytes 4 blob.length ++ blob else blob

/-- The bytes of one entry: the tag byte followed by the payload. -/
def encode_entry (types : List type_description) : Entry → List Byte
  | Entry.statement id => tag_byte STATEMENT_ID :: le_bytes 8 id
  | Entry.var name_index type_index value =>
    tag_byte VARIABLE ::
      (le_bytes 4 name_index ++
        (le_bytes 4 type_index ++ encode_value (types.getD type_index default) value))
  | Entry.buffer_size record => tag_byte BUFFER_SIZE :: record
  | Entry.auxiliary value => tag_byte AUXILIARY :: le_bytes 8 value

/-- The bytes of a sequence of entries. -/
def encode_entries (types : List type_description) : List Entry → List Byte
  | [] => []
  | e :: es => encode_entry types e ++ encode_entries types es

/-- The bytes of one trace point: its entries closed by `END_ENTRY`. -/
def encode_point (types : List type_description) (p : List Entry) : List Byte :=
  encode_entries types p ++ [tag_byte END_ENTRY]

/-- The bytes of a trace body: its trace points one after the other. -/
def encode_trace (types : List type_description) : List (List Entry) → List Byte
  | [] => []
  | p :: ps => encode_point types p ++ encode_trace types ps

/-- A value fits the descriptor `type`: a signed integer of width 1, 2, 4 or
8 within the range of that width; an unsigned pattern of 1 to 8 bytes; a
blob of the descriptor's fixed size, or a non-empty blob whose length fits
32 bits when the size is open. -/
def value_ok (type : type_description) : trace_value → Prop
  | trace_value.s v =>
    type.format = SIGNED ∧
      (type.size = 1 ∨ type.size = 2 ∨ type.size = 4 ∨ type.size = 8) ∧
      -((2 ^ (8 * type.size - 1) : Nat) : Int) ≤ v ∧ v < ((2 ^ (8 * type.size - 1) : Nat) : Int)
  | trace_value.u bits =>
    (type.format = UNSIGNED ∨ type.format = FLOAT ∨ type.format = POINTER) ∧
      1 ≤ type.size ∧ type.size ≤ 8 ∧ bits < 256 ^ type.size
  | trace_value.ptr blob =>
    type.format = BLOB ∧ type.size < 2 ^ 32 ∧ 0 < blob.length ∧ blob.length < 2 ^ 32 ∧
      (type.size ≠ 0 → blob.length = type.size)

/-- An entry is well formed for a session: its indices are in range, its
payload is complete and fits its descriptor. -/
def entry_ok (sz : Nat) (state : trace_read_state) : Entry → Prop
  | Entry.statement id => id < 2 ^ 64
  | Entry.var name_index type_index value =>
    name_index < state.n_names ∧ type_index < state.n_types ∧
      name_index < 2 ^ 32 ∧ type_index < 2 ^ 32 ∧
      value_ok (state.types.getD type_index default) value
  | Entry.buffer_size record => 0 < sz ∧ record.length = sz
  | Entry.auxiliary value => value < 2 ^ 64

instance (type : type_description) (v : trace_value) : Decidable (value_ok type v) := by
  cases v <;> unfold value_ok <;> exact inferInstance

instance (sz : Nat) (state : trace_read_state) (e : Entry) : Decidable (entry_ok sz state e) := by
  cases e <;> unfold entry_ok <;> exact inferInstance

/-- The record the reader is expected to produce for a variable entry. -/
def decoded_var (types : List type_description) (name_index type_index : Nat)
    (value : trace_value) : trace_var_info :=
  { name_index := name_index
    type_index := type_index
    size :=
      match value with
      | trace_value.ptr blob => blob.length
      | _ => (types.getD type_index default).size
    has_buffer_size := 0
    value := value }

/-- The decoded records of the `VARIABLE` entries, in stream order. -/
def vars_of (types : List type_description) : List Entry → List trace_var_info
  | [] => []
  | Entry.var name_index type_index value :: es =>
    decoded_var types name_index type_index value :: vars_of types es
  | Entry.statement _ :: es => vars_of types es
  | Entry.buffer_size _ :: es => vars_of types es
  | Entry.auxiliary _ :: es => vars_of types es

/-- The records of the `BUFFER_SIZE` entries, in stream order. -/
def sizes_of : List Entry → List trace_buffer_size
  | [] => []
  | Entry.buffer_size record :: es => record :: sizes_of es
  | Entry.statement _ :: es => sizes_of es
  | Entry.var _ _ _ :: es => sizes_of es
  | Entry.auxiliary _ :: es => sizes_of es

/-- The values of the `AUXILIARY` entries, in stream order. -/
def aux_of : List Entry → List Nat
  | [] => []
  | Entry.auxiliary value :: es => value :: aux_of es
  | Entry.statement _ :: es => aux_of es
  | Entry.var _ _ _ :: es => aux_of es
  | Entry.buffer_size _ :: es => aux_of es

/-- The id of the last `STATEMENT_ID` entry, or `init` when there is none. -/
def statement_of (init : Nat) : List Entry → Nat
  | [] => init
  | Entry.statement id :: es => statement_of id es
  | Entry.var _ _ _ :: es => statement_of init es
  | Entry.buffer_size _ :: es => statement_of init es
  | Entry.auxiliary _ :: es => statement_of init es

/-- Storing record number `n` (counted from zero) in a buffer, as the loop
of `read_trace_point` does after incrementing the count to `n + 1`. -/
def push {α : Type} (buffer : List (Option α)) (n : Nat) (x : α) : List (Option α) :=
  (ENSURE_BUFFER_SIZE buffer (n + 1)).set n (some x)

/-- What decoding one well-formed entry does to the session's buffers and to
the accumulator of `read_trace_point`. -/
def apply_entry (types : List type_description) (e : Entry) (state : trace_read_state)
    (result : trace_point) : trace_read_state × trace_point :=
  match e with
  | Entry.statement id => (state, { result with statement := id })
  | Entry.var name_index type_index value =>
    ({ state with
        var_buffer :=
          push state.var_buffer result.n_vars (decoded_var types name_index type_index value) },
      { result with n_vars := result.n_vars + 1 })
  | Entry.buffer_size record =>
    ({ state with size_buffer := push state.size_buffer result.n_sizes record },
      { result with n_sizes := result.n_sizes + 1 })
  | Entry.auxiliary value =>
    ({ state with aux_buffer := push state.aux_buffer result.n_aux value },
      { result with n_aux := result.n_aux + 1 })

/-- What decoding a sequence of well-formed entries does to the session's
buffers and to the accumulator. -/
def apply_entries (types : List type_description) :
    List Entry → trace_read_state → trace_point → trace_read_state × trace_point
  | [], state, result => (state, result)
  | e :: es, state, result =>
    apply_entries types es (apply_entry types e state result).1
      (apply_entry types e state result).2

/-- The session `state'` and accumulator `result'` are what decoding the
entries `es` makes of `state` and `result`: the dictionaries, the stream and
the error code are untouched, each count has grown by the number of entries
of its kind, and the counted cells of each buffer are the cells counted
before followed by the decoded payloads in stream order. -/
structure Accumulates (types : List type_description) (es : List Entry)
    (state : trace_read_state) (result : trace_point)
    (state' : trace_read_state) (result' : trace_point) : Prop where
  file_eq : state'.file = state.file
  names_eq : state'.names = state.names
  types_eq : state'.types = state.types
  error_code_eq : state'.error_code = state.error_code
  statement_eq : result'.statement = statement_of result.statement es
  n_vars_eq : result'.n_vars = result.n_vars + (vars_of types es).length
  n_sizes_eq : result'.n_sizes = result.n_sizes + (sizes_of es).length
  n_aux_eq : result'.n_aux = result.n_aux + (aux_of es).length
  n_vars_le : result'.n_vars ≤ state'.var_buffer.length
  n_sizes_le : result'.n_sizes ≤ state'.size_buffer.length
  n_aux_le : result'.n_aux ≤ state'.aux_buffer.length
  vars_eq : state'.var_buffer.take result'.n_vars =
    state.var_buffer.take result.n_vars ++ (vars_of types es).map some
  sizes_eq : state'.size_buffer.take result'.n_sizes =
    state.size_buffer.take result.n_sizes ++ (sizes_of es).map some
  aux_eq : state'.aux_buffer.take result'.n_aux =
    state.aux_buffer.take result.n_aux ++ (aux_of es).map some
  var_capacity : state.var_buffer.length ≤ state'.var_buffer.length
  size_capacity : state.size_buffer.length ≤ state'.size_buffer.length
  aux_capacity : state.aux_buffer.length ≤ state'.aux_buffer.length

/-- The trace point `tp` shows the entries `p`: its counts are the numbers
of entries of each kind, the first `n_vars`, `n_sizes` and `n_aux` cells of
its three arrays hold the decoded payloads in stream order, and its
statement is the last statement id of `p`, zero when there is none. -/
def point_matches (types : List type_description) (tp : trace_point) (p : List Entry) :
    Prop :=
  tp.statement = statement_of 0 p ∧
    tp.n_vars = (vars_of types p).length ∧
    tp.n_sizes = (sizes_of p).length ∧
    tp.n_aux = (aux_of p).length ∧
    tp.vars.take tp.n_vars = (vars_of types p).map some ∧
    tp.sizes.take tp.n_sizes = (sizes_of p).map some ∧
    tp.aux.take tp.n_aux = (aux_of p).map some

/-- The accumulator `read_trace_point` starts from. -/
def empty_point : trace_point :=
  { statement := 0, sizes := [], n_sizes := 0, vars := [], n_vars := 0, aux := [], n_aux := 0 }

/-- Successive calls of `read_trace_point` on one session, `k` of them: the
code and the contents of `*result_ptr` after each call. -/
def read_calls (sz : Nat) :
    Nat → trace_read_state → trace_point → Option (List (trace_error × trace_point))
  | 0, _, _ => some []
  | k + 1, state, result_ptr =>
    match read_trace_point sz state result_ptr with
    | none => none
    | some (code, state, result_ptr) =>
      (read_calls sz k state result_ptr).map (fun l => (code, result_ptr) :: l)

/-- The session and the contents of `*result_ptr` after `k` successive
calls of `read_trace_point`, each call given what the one before left. -/
def after_calls (sz : Nat) :
    Nat → trace_read_state → trace_point → Option (trace_read_state × trace_point)
  | 0, state, result_ptr => some (state, result_ptr)
  | k + 1, state, result_ptr =>
    match read_trace_point sz state result_ptr with
    | none => none
    | some (_, state, result_ptr) => after_calls sz k state result_ptr

/-- Every descriptor of the session's type dictionary passed the two tests
of the validation loop of `start_reading`: its format, read as a signed
32-bit integer, is below the `INVALID_FORMAT` sentinel, and its name index
is below `n_names`. -/
def types_checked (state : trace_read_state) : Prop :=
  ∀ t ∈ state.types,
    to_signed 32 t.format < ((INVALID_FORMAT : Nat) : Int) ∧ t.name_index < state.n_names

/-- Every descriptor of the session's type dictionary has a format below
the `INVALID_FORMAT` sentinel and a name index below `n_names`. -/
def types_valid (state : trace_read_state) : Prop :=
  ∀ t ∈ state.types, t.format < INVALID_FORMAT ∧ t.name_index < state.n_names

/-- The bytes of a header: the 8-byte length of the name blob, the blob, the
4-byte number of type descriptors and the descriptors' bytes. -/
def encode_header (blob : List Byte) (n_types : Nat) (type_bytes : List Byte) : List Byte :=
  le_bytes 8 blob.length ++ (blob ++ (le_bytes 4 n_types ++ type_bytes))

/-- The counts of a trace point lie within the capacities of the session's
buffers. -/
def within_capacity (tp : trace_point) (state : trace_read_state) : Prop :=
  tp.n_vars ≤ state.n_vars ∧ tp.n_sizes ≤ state.n_sizes ∧ tp.n_aux ≤ state.n_aux

/-- The capacities of the three buffers of `state'` are at least those of
`state`. -/
def capacity_le (state state' : trace_read_state) : Prop :=
  state.n_vars ≤ state'.n_vars ∧ state.n_sizes ≤ state'.n_sizes ∧ state.n_aux ≤ state'.n_aux

/-- What any read operation may do to the session: the dictionaries are
kept, no buffer shrinks, no consumed byte comes back, and an error code
other than OK is not reset to OK. -/
structure Advances (state state' : trace_read_state) : Prop where
  names_eq : state'.names = state.names
  types_eq : state'.types = state.types
  capacity : capacity_le state state'
  data_le : state'.file.data.length ≤ state.file.data.length
  latched : state.error_code ≠ TRACE_OK → state'.error_code ≠ TRACE_OK

/-- The outcome of the loop of `read_trace_point` entered with the session
`state`, the accumulator `result` and `*result_ptr = rp`: the returned code
is the session's error code; the session has advanced; `*result_ptr` is
either left as it was, or the call returns OK and has stored a trace point
whose three arrays are the session's buffers and whose counts lie within
their capacities if those of the accumulator did on entry; when the code is
not OK, `*result_ptr` is left as it was. -/
structure Returns (state : trace_read_state) (result rp : trace_point) (code : trace_error)
    (state' : trace_read_state) (tp : trace_point) : Prop where
  code_eq : code = state'.error_code
  advances : Advances state state'
  stored : tp = rp ∨
    (code = TRACE_OK ∧ tp.vars = state'.var_buffer ∧ tp.sizes = state'.size_buffer ∧
      tp.aux = state'.aux_buffer ∧
      (within_capacity result state → within_capacity tp state'))
  unchanged : code ≠ TRACE_OK → tp = rp

/-! ## Concrete inputs -/

/-- A session with the names `x` and `y`, one type descriptor (signed, four
bytes wide, named `x`), empty buffers, error code OK and the unread input
`d`. -/
def example_state (d : List Byte) : trace_read_state :=
  { file := { data := d, eof := false }
    names := [[120], [121]]
    types := [{ name_index := 0, format := SIGNED, size := 4 }]
    size_buffer := [], var_buffer := [], aux_buffer := []
    error_code := TRACE_OK }

/-- The body `STATEMENT_ID(42), VARIABLE(0, 0, -7), END_ENTRY`. -/
def example_body : List Byte :=
  [1, 42, 0, 0, 0, 0, 0, 0, 0, 2, 0, 0, 0, 0, 0, 0, 0, 0, 0xF9, 0xFF, 0xFF, 0xFF, 0]

/-- The variable record decoded from `example_body`. -/
def example_var : trace_var_info :=
  { name_index := 0, type_index := 0, size := 4, has_buffer_size := 0,
    value := trace_value.s (-7) }

/-- The trace point decoded from `example_body`. -/
def example_point : trace_point :=
  { statement := 42, sizes := [], n_sizes := 0, vars := [some example_var], n_vars := 1,
    aux := [], n_aux := 0 }

/-- A layout of `type_description` for the concrete inputs: twelve bytes,
the three fields `name_index`, `format`, `size` as 32-bit little-endian
integers in this order. -/
def example_decode (bytes : List Byte) : type_description :=
  { name_index := le_value (bytes.take 4)
    format := le_value ((bytes.drop 4).take 4)
    size := le_value ((bytes.drop 8).take 4) }

/-- The name blob `x\0y\0`. -/
def example_blob : List Byte := [120, 0, 121, 0]

/-- The bytes of the descriptor `{name_index 0, format SIGNED, size 4}`
under `example_decode`. -/
def example_type_bytes : List Byte := [0, 0, 0, 0, 0, 0, 0, 0, 4, 0, 0, 0]

/-- The header with the names `x`, `y` and one signed four-byte type. -/
def example_header : List Byte := encode_header example_blob 1 example_type_bytes

/-- A stream holding the bytes `d`, end-of-file indicator clear. -/
def example_file (d : List Byte) : FILE := { data := d, eof := false }

/-- The bytes of the descriptor `{name_index 0, format BLOB, size 0}` under
`example_decode`: a blob type whose size is left to each value. -/
def open_blob_type_bytes : List Byte := [0, 0, 0, 0, 4, 0, 0, 0, 0, 0, 0, 0]

/-- The bytes of the descriptor `{name_index 0, format SIGNED, size 3}`
under `example_decode`. -/
def signed3_type_bytes : List Byte := [0, 0, 0, 0, 0, 0, 0, 0, 3, 0, 0, 0]

/-- The bytes of a descriptor with name index 0 and size 4 whose format
field holds the pattern 0xFFFFFFFF, under `example_decode`. -/
def all_ones_type_bytes : List Byte := [0, 0, 0, 0, 0xFF, 0xFF, 0xFF, 0xFF, 4, 0, 0, 0]

/-- The bytes of a descriptor with name index 0 and size 4 whose format
field holds the pattern 0x80000000, under `example_decode`. -/
def top_bit_type_bytes : List Byte := [0, 0, 0, 0, 0, 0, 0, 0x80, 4, 0, 0, 0]

/-- A name blob of 2^32 bytes holding one name: 2^32 - 1 letters `x` and the
terminator. -/
def long_blob : List Byte := List.replicate (2 ^ 32 - 1) 120 ++ [0]

/-- The session `start_reading` builds from a header with the names `x` and
`y` and the type dictionary `types`, when `d` is what follows the header. -/
def opened_state (types : List type_description) (d : List Byte) : trace_read_state :=
  { example_state d with types := types }

/-! ## Integer representation lemmas -/

theorem length_le_bytes (w n : Nat) : (le_bytes w n).length = w := by
  induction w generalizing n with
  | zero => rfl
  | succ w ih => simp [le_bytes, ih]

theorem le_value_le_bytes (w n : Nat) : le_value (le_bytes w n) = n % 256 ^ w := by
  induction w generalizing n with
  | zero => simp [le_bytes, le_value, Nat.mod_one]
  | succ w ih =>
    simp only [le_bytes, le_value, ih]
    rw [pow_succ, mul_comm (256 ^ w) 256, Nat.mod_mul]

theorem le_value_lt (bs : List Byte) : le_value bs < 256 ^ bs.length := by
  induction bs with
  | nil => simp [le_value]
  | cons b bs ih =>
    simp only [le_value, List.length_cons, pow_succ]
    have := b.isLt
    omega

theorem le_value_le_bytes_of_lt (w n : Nat) (h : n < 256 ^ w) :
    le_value (le_bytes w n) = n := by
  rw [le_value_le_bytes, Nat.mod_eq_of_lt h]

theorem length_twos_complement (w : Nat) (v : Int) : (twos_complement w v).length = w :=
  length_le_bytes _ _

theorem to_signed_twos_complement (w : Nat) (hw : 0 < w) (v : Int)
    (hlo : -((2 ^ (8 * w - 1) : Nat) : Int) ≤ v) (hhi : v < ((2 ^ (8 * w - 1) : Nat) : Int)) :
    to_signed (8 * w) (le_value (twos_complement w v)) = v := by
  have hpow : (256 : Nat) ^ w = 2 ^ (8 * w) := by
    rw [pow_mul]; norm_num
  have hsplit : (2 : Nat) ^ (8 * w) = 2 * 2 ^ (8 * w - 1) := by
    rw [← pow_succ']; congr 1; omega
  have hpos : (0 : Int) < ((256 ^ w : Nat) : Int) := by positivity
  have hnn : 0 ≤ v % ((256 ^ w : Nat) : Int) := Int.emod_nonneg _ (ne_of_gt hpos)
  have hlt : v % ((256 ^ w : Nat) : Int) < ((256 ^ w : Nat) : Int) := Int.emod_lt_of_pos _ hpos
  have hval : le_value (twos_complement w v) = (v % ((256 ^ w : Nat) : Int)).toNat := by
    unfold twos_complement
    rw [le_value_le_bytes, Nat.mod_eq_of_lt]
    have : ((v % ((256 ^ w : Nat) : Int)).toNat : Int) < ((256 ^ w : Nat) : Int) := by
      rw [Int.toNat_of_nonneg hnn]; exact hlt
    exact_mod_cast this
  have hcast : (((v % ((256 ^ w : Nat) : Int)).toNat : Nat) : Int) = v % ((256 ^ w : Nat) : Int) :=
    Int.toNat_of_nonneg hnn
  have hmodlt : (v % ((256 ^ w : Nat) : Int)).toNat < 2 ^ (8 * w) := by
    rw [← hpow]
    have : ((v % ((256 ^ w : Nat) : Int)).toNat : Int) < ((256 ^ w : Nat) : Int) := by
      rw [hcast]; exact hlt
    exact_mod_cast this
  unfold to_signed
  rw [hval, Nat.mod_eq_of_lt hmodlt, hcast]
  rw [hpow] at hlt hnn ⊢
  have hS : ((2 ^ (8 * w) : Nat) : Int) = 2 * ((2 ^ (8 * w - 1) : Nat) : Int) := by
    rw [hsplit]; push_cast; ring
  by_cases hneg : 0 ≤ v
  · have hm : v % ((2 ^ (8 * w) : Nat) : Int) = v := Int.emod_eq_of_lt hneg (by omega)
    rw [hm]
    have : (v.toNat : Int) = v := Int.toNat_of_nonneg hneg
    have h1 : v.toNat < 2 ^ (8 * w - 1) := by
      have : (v.toNat : Int) < ((2 ^ (8 * w - 1) : Nat) : Int) := by omega
      exact_mod_cast this
    rw [if_pos h1]
  · have hm : v % ((2 ^ (8 * w) : Nat) : Int) = v + ((2 ^ (8 * w) : Nat) : Int) := by
      rw [← Int.add_emod_self]
      exact Int.emod_eq_of_lt (by omega) (by omega)
    rw [hm]
    have h1 : ¬ (v + ((2 ^ (8 * w) : Nat) : Int)).toNat < 2 ^ (8 * w - 1) := by
      intro h
      have h2 : (((v + ((2 ^ (8 * w) : Nat) : Int)).toNat : Nat) : Int)
          < ((2 ^ (8 * w - 1) : Nat) : Int) := by exact_mod_cast h
      rw [Int.toNat_of_nonneg (by omega)] at h2
      omega
    rw [if_neg h1]
    omega

/-! ## Stream lemmas -/

@[simp] theorem set_data_set_data (state : trace_read_state) (a b : List Byte) :
    set_data (set_data state a) b = set_data state b := rfl

@[simp] theorem set_data_data (state : trace_read_state) (a : List Byte) :
    (set_data state a).file.data = a := rfl

@[simp] theorem set_data_eof (state : trace_read_state) (a : List Byte) :
    (set_data state a).file.eof = state.file.eof := rfl

@[simp] theorem set_data_types (state : trace_read_state) (a : List Byte) :
    (set_data state a).types = state.types := rfl

@[simp] theorem set_data_n_names (state : trace_read_state) (a : List Byte) :
    (set_data state a).n_names = state.n_names := rfl

@[simp] theorem set_data_n_types (state : trace_read_state) (a : List Byte) :
    (set_data state a).n_types = state.n_types := rfl

@[simp] theorem set_data_error_code (state : trace_read_state) (a : List Byte) :
    (set_data state a).error_code = state.error_code := rfl

theorem set_data_self (state : trace_read_state) (d : List Byte) (h : state.file.data = d) :
    set_data state d = state := by
  cases state with
  | mk file names types sb vb ab ec =>
    cases file with
    | mk data eof =>
      simp only [set_data] at h ⊢
      subst h
      rfl

theorem FREAD_CHECK_append (n : Nat) (hn : 0 < n) (state : trace_read_state)
    (a rest : List Byte) (ha : a.length = n) (hd : state.file.data = a ++ rest) :
    FREAD_CHECK n 1 state = (some a, set_data state rest) := by
  have h1 : fread n 1 state.file = (a, 1, { state.file with data := rest }) := by
    unfold fread
    have hne : ¬ (n = 0 ∨ 1 = 0) := by omega
    have hle : n * 1 ≤ state.file.data.length := by simp [hd, ha]
    rw [if_neg hne, if_pos hle, hd]
    simp [← ha]
  unfold FREAD_CHECK
  rw [h1]
  simp [set_data]

theorem FREAD_CHECK_short (n : Nat) (state : trace_read_state)
    (h : state.file.data.length < n) :
    FREAD_CHECK n 1 state =
      (none, { state with file := { data := [], eof := true }, error_code := TRACE_EOF }) := by
  have h1 : fread n 1 state.file
      = (state.file.data, state.file.data.length / n, { data := [], eof := true }) := by
    unfold fread
    have hne : ¬ (n = 0 ∨ 1 = 0) := by omega
    have hle : ¬ n * 1 ≤ state.file.data.length := by omega
    rw [if_neg hne, if_neg hle]
  have h2 : state.file.data.length / n ≠ 1 := by
    rw [Nat.div_eq_of_lt h]; decide
  unfold FREAD_CHECK
  rw [h1]
  simp [h2, feof]

theorem FREAD_CHECK_short_code (n : Nat) (state : trace_read_state)
    (h : state.file.data.length < n) :
    ∃ st, FREAD_CHECK n 1 state = (none, st) ∧ st.error_code = TRACE_EOF :=
  ⟨_, FREAD_CHECK_short n state h, rfl⟩

theorem FREAD_CHECK_zero (state : trace_read_state) :
    FREAD_CHECK 0 1 state =
      (none, { state with
        error_code := if state.file.eof then TRACE_EOF else TRACE_ERROR }) := by
  simp [FREAD_CHECK, fread, feof]

theorem take_append_cases (a b : List Byte) (k : Nat) :
    (k < a.length ∧ (a ++ b).take k = a.take k) ∨
      (a.length ≤ k ∧ (a ++ b).take k = a ++ b.take (k - a.length)) := by
  rw [List.take_append_eq_append_take]
  by_cases h : k < a.length
  · left
    refine ⟨h, ?_⟩
    have : k - a.length = 0 := by omega
    rw [this, List.take_zero, List.append_nil]
  · right
    refine ⟨by omega, ?_⟩
    rw [List.take_of_length_le (by omega)]

theorem length_take_lt (a : List Byte) (k n : Nat) (h : k < n) : (a.take k).length < n := by
  rw [List.length_take]
  omega

/-! ## Lemmas on `read_var_info` -/

theorem read_var_info_indices (state : trace_read_state) (nb tb rest : List Byte)
    (hnb : nb.length = 4) (htb : tb.length = 4)
    (hd : state.file.data = nb ++ (tb ++ rest))
    (hni : le_value nb < state.n_names) (hti : le_value tb < state.n_types) :
    read_var_info state =
      read_var_value (state.types.getD (le_value tb) default)
        { name_index := le_value nb, type_index := le_value tb,
          size := (state.types.getD (le_value tb) default).size, has_buffer_size := 0,
          value := trace_value.u 0 }
        (set_data state rest) := by
  unfold read_var_info
  rw [FREAD_CHECK_append 4 (by decide) state nb (tb ++ rest) hnb hd]
  simp only
  rw [FREAD_CHECK_append 4 (by decide) (set_data state (tb ++ rest)) tb rest htb rfl]
  simp only [set_data_set_data, set_data_n_names, set_data_n_types, set_data_types]
  rw [if_neg (by omega)]

theorem read_var_info_bad_index (state : trace_read_state) (nb tb rest : List Byte)
    (hnb : nb.length = 4) (htb : tb.length = 4)
    (hd : state.file.data = nb ++ (tb ++ rest))
    (hbad : state.n_names ≤ le_value nb ∨ state.n_types ≤ le_value tb) :
    read_var_info state =
      ({ name_index := le_value nb, type_index := le_value tb, size := 0,
         has_buffer_size := 0, value := trace_value.u 0 },
       { set_data state rest with error_code := TRACE_ERROR }) := by
  unfold read_var_info
  rw [FREAD_CHECK_append 4 (by decide) state nb (tb ++ rest) hnb hd]
  simp only
  rw [FREAD_CHECK_append 4 (by decide) (set_data state (tb ++ rest)) tb rest htb rfl]
  simp only [set_data_set_data, set_data_n_names, set_data_n_types, set_data_types]
  rw [if_pos (by simpa using hbad)]

theorem read_signed_append (w : Nat) (hw : 0 < w) (result : trace_var_info)
    (state : trace_read_state) (vb rest : List Byte) (hsz : result.size = w)
    (hvb : vb.length = w) (hd : state.file.data = vb ++ rest) :
    read_signed w result state =
      ({ result with value := trace_value.s (to_signed (8 * w) (le_value vb)) },
        set_data state rest) := by
  unfold read_signed
  rw [hsz, FREAD_CHECK_append w hw state vb rest hvb hd]

theorem read_signed_short (w : Nat) (result : trace_var_info) (state : trace_read_state)
    (h : state.file.data.length < result.size) :
    (read_signed w result state).2.error_code = TRACE_EOF := by
  obtain ⟨st, h1, h2⟩ := FREAD_CHECK_short_code result.size state h
  unfold read_signed
  rw [h1]
  exact h2

theorem read_var_value_signed (type : type_description) (result : trace_var_info)
    (state : trace_read_state) (vb rest : List Byte)
    (hf : type.format = SIGNED)
    (hw : result.size = 1 ∨ result.size = 2 ∨ result.size = 4 ∨ result.size = 8)
    (hvb : vb.length = result.size) (hd : state.file.data = vb ++ rest) :
    read_var_value type result state =
      ({ result with value := trace_value.s (to_signed (8 * result.size) (le_value vb)) },
        set_data state rest) := by
  unfold read_var_value
  rw [if_pos hf]
  rcases hw with h | h | h | h
  · rw [if_pos h, read_signed_append 1 (by decide) result state vb rest h (by omega) hd, h]
  · rw [if_neg (by omega), if_pos h,
      read_signed_append 2 (by decide) result state vb rest h (by omega) hd, h]
  · rw [if_neg (by omega), if_neg (by omega), if_pos h,
      read_signed_append 4 (by decide) result state vb rest h (by omega) hd, h]
  · rw [if_neg (by omega), if_neg (by omega), if_neg (by omega), if_pos h,
      read_signed_append 8 (by decide) result state vb rest h (by omega) hd, h]

theorem read_var_value_signed_bad_size (type : type_description) (result : trace_var_info)
    (state : trace_read_state) (hf : type.format = SIGNED)
    (h1 : result.size ≠ 1) (h2 : result.size ≠ 2) (h4 : result.size ≠ 4)
    (h8 : result.size ≠ 8) :
    read_var_value type result state = (result, state) := by
  unfold read_var_value
  rw [if_pos hf, if_neg h1, if_neg h2, if_neg h4, if_neg h8]

theorem read_var_info_signed_bad_size (state : trace_read_state) (nb tb rest : List Byte)
    (hnb : nb.length = 4) (htb : tb.length = 4)
    (hni : le_value nb < state.n_names) (hti : le_value tb < state.n_types)
    (hf : (state.types.getD (le_value tb) default).format = SIGNED)
    (h1 : (state.types.getD (le_value tb) default).size ≠ 1)
    (h2 : (state.types.getD (le_value tb) default).size ≠ 2)
    (h4 : (state.types.getD (le_value tb) default).size ≠ 4)
    (h8 : (state.types.getD (le_value tb) default).size ≠ 8)
    (hd : state.file.data = nb ++ (tb ++ rest)) :
    read_var_info state =
      ({ name_index := le_value nb, type_index := le_value tb,
         size := (state.types.getD (le_value tb) default).size, has_buffer_size := 0,
         value := trace_value.u 0 },
        set_data state rest) := by
  rw [read_var_info_indices state nb tb rest hnb htb hd hni hti,
    read_var_value_signed_bad_size _ _ _ hf h1 h2 h4 h8]

theorem read_var_value_unsigned (type : type_description) (result : trace_var_info)
    (state : trace_read_state) (vb rest : List Byte)
    (hf : type.format = UNSIGNED ∨ type.format = FLOAT ∨ type.format = POINTER)
    (hlo : 1 ≤ result.size) (hhi : result.size ≤ 8)
    (hvb : vb.length = result.size) (hd : state.file.data = vb ++ rest) :
    read_var_value type result state =
      ({ result with value := trace_value.u (le_value vb) }, set_data state rest) := by
  have hns : ¬ type.format = SIGNED := by
    rcases hf with h | h | h <;> rw [h] <;> decide
  have hlt : le_value vb < 2 ^ 64 := by
    have h1 := le_value_lt vb
    have h2 : (256 : Nat) ^ vb.length ≤ 256 ^ 8 := Nat.pow_le_pow_right (by decide) (by omega)
    have h3 : (256 : Nat) ^ 8 = 2 ^ 64 := by norm_num
    omega
  unfold read_var_value
  rw [if_neg hns, if_pos hf, FREAD_CHECK_append result.size hlo state vb rest hvb hd]
  simp only [Nat.mod_eq_of_lt hlt]

theorem read_blob_append (size : Nat) (hsz : 0 < size) (result : trace_var_info)
    (state : trace_read_state) (blob rest : List Byte)
    (hb : blob.length = size) (hd : state.file.data = blob ++ rest) :
    read_blob size result state =
      ({ result with size := size, value := trace_value.ptr blob }, set_data state rest) := by
  unfold read_blob
  rw [FREAD_CHECK_append size hsz state blob rest hb hd]

theorem read_blob_short (size : Nat) (result : trace_var_info) (state : trace_read_state)
    (h : state.file.data.length < size) :
    (read_blob size result state).2.error_code = TRACE_EOF := by
  obtain ⟨st, h1, h2⟩ := FREAD_CHECK_short_code size state h
  unfold read_blob
  rw [h1]
  exact h2

theorem format_BLOB_cases (type : type_description) (hf : type.format = BLOB) :
    ¬ type.format = SIGNED ∧
      ¬ (type.format = UNSIGNED ∨ type.format = FLOAT ∨ type.format = POINTER) := by
  rw [hf]; decide

theorem read_var_value_blob_fixed (type : type_description) (result : trace_var_info)
    (state : trace_read_state) (blob rest : List Byte)
    (hf : type.format = BLOB) (hpos : 0 < result.size) (hlt : result.size < 2 ^ 32)
    (hb : blob.length = result.size) (hd : state.file.data = blob ++ rest) :
    read_var_value type result state =
      ({ result with value := trace_value.ptr blob }, set_data state rest) := by
  obtain ⟨h1, h2⟩ := format_BLOB_cases type hf
  unfold read_var_value
  rw [if_neg h1, if_neg h2, if_pos hf, Nat.mod_eq_of_lt hlt, if_neg (by omega),
    read_blob_append result.size hpos result state blob rest hb hd]

theorem read_var_value_blob_variable (type : type_description) (result : trace_var_info)
    (state : trace_read_state) (lb blob rest : List Byte)
    (hf : type.format = BLOB) (hz : result.size = 0)
    (hlb : lb.length = 4) (hpos : 0 < le_value lb) (hb : blob.length = le_value lb)
    (hd : state.file.data = lb ++ (blob ++ rest)) :
    read_var_value type result state =
      ({ result with size := le_value lb, value := trace_value.ptr blob },
        set_data state rest) := by
  obtain ⟨h1, h2⟩ := format_BLOB_cases type hf
  unfold read_var_value
  rw [if_neg h1, if_neg h2, if_pos hf, hz, if_pos (by decide),
    FREAD_CHECK_append 4 (by decide) state lb (blob ++ rest) hlb hd]
  simp only
  rw [read_blob_append (le_value lb) hpos result (set_data state (blob ++ rest)) blob rest hb rfl]
  simp

theorem read_var_value_blob_empty (type : type_description) (result : trace_var_info)
    (state : trace_read_state) (lb rest : List Byte)
    (hf : type.format = BLOB) (hz : result.size = 0)
    (hlb : lb.length = 4) (hzero : le_value lb = 0)
    (hd : state.file.data = lb ++ rest) :
    (read_var_value type result state).2 =
      { set_data state rest with
        error_code := if state.file.eof then TRACE_EOF else TRACE_ERROR } := by
  obtain ⟨h1, h2⟩ := format_BLOB_cases type hf
  unfold read_var_value
  rw [if_neg h1, if_neg h2, if_pos hf, hz, if_pos (by decide),
    FREAD_CHECK_append 4 (by decide) state lb rest hlb hd]
  simp only
  unfold read_blob
  rw [hzero, FREAD_CHECK_zero]
  simp

theorem read_var_info_entry (state : trace_read_state) (ni ti : Nat) (v : trace_value)
    (rest : List Byte)
    (hni : ni < state.n_names) (hti : ti < state.n_types)
    (hni32 : ni < 2 ^ 32) (hti32 : ti < 2 ^ 32)
    (hv : value_ok (state.types.getD ti default) v)
    (hd : state.file.data =
      le_bytes 4 ni ++ (le_bytes 4 ti ++ (encode_value (state.types.getD ti default) v ++ rest))) :
    read_var_info state = (decoded_var state.types ni ti v, set_data state rest) := by
  have e1 : le_value (le_bytes 4 ni) = ni := le_value_le_bytes_of_lt 4 ni (by norm_num at hni32 ⊢; omega)
  have e2 : le_value (le_bytes 4 ti) = ti := le_value_le_bytes_of_lt 4 ti (by norm_num at hti32 ⊢; omega)
  rw [read_var_info_indices state (le_bytes 4 ni) (le_bytes 4 ti) _ (length_le_bytes _ _)
    (length_le_bytes _ _) hd (by rw [e1]; exact hni) (by rw [e2]; exact hti), e1, e2]
  cases v with
  | s v =>
    obtain ⟨hf, hw, hlo, hhi⟩ := hv
    simp only [encode_value]
    rw [read_var_value_signed (state.types.getD ti default)
      { name_index := ni, type_index := ti, size := (state.types.getD ti default).size,
        has_buffer_size := 0, value := trace_value.u 0 }
      (set_data state _) (twos_complement _ v) rest hf hw
      (length_twos_complement _ _) rfl]
    simp only [set_data_set_data, decoded_var]
    rw [to_signed_twos_complement _ (by rcases hw with h | h | h | h <;> omega) v hlo hhi]
  | u bits =>
    obtain ⟨hf, hlo, hhi, hb⟩ := hv
    simp only [encode_value]
    rw [read_var_value_unsigned (state.types.getD ti default)
      { name_index := ni, type_index := ti, size := (state.types.getD ti default).size,
        has_buffer_size := 0, value := trace_value.u 0 }
      (set_data state _) (le_bytes _ bits) rest hf hlo hhi
      (length_le_bytes _ _) rfl]
    simp only [set_data_set_data, decoded_var]
    rw [le_value_le_bytes_of_lt _ _ hb]
  | ptr blob =>
    obtain ⟨hf, hs32, hpos, hb32, hfix⟩ := hv
    by_cases hz : (state.types.getD ti default).size = 0
    · have hd2 : (set_data state (encode_value (state.types.getD ti default)
          (trace_value.ptr blob) ++ rest)).file.data
          = le_bytes 4 blob.length ++ (blob ++ rest) := by
        simp only [set_data_data, encode_value]
        rw [if_pos hz, List.append_assoc]
      have e3 : le_value (le_bytes 4 blob.length) = blob.length :=
        le_value_le_bytes_of_lt 4 _ (by norm_num at hb32 ⊢; omega)
      rw [read_var_value_blob_variable _ _ _ (le_bytes 4 blob.length) blob rest hf hz
        (length_le_bytes _ _) (by rw [e3]; exact hpos) (by rw [e3]) hd2]
      simp only [set_data_set_data, decoded_var, e3]
    · have hd2 : (set_data state (encode_value (state.types.getD ti default)
          (trace_value.ptr blob) ++ rest)).file.data = blob ++ rest := by
        simp only [set_data_data, encode_value]
        rw [if_neg hz]
      rw [read_var_value_blob_fixed _ _ _ blob rest hf (by simp only; omega) hs32
        (by simp only; exact hfix hz) hd2]
      simp only [set_data_set_data, decoded_var, hfix hz]

theorem read_var_value_truncated (type : type_description) (result : trace_var_info)
    (state : trace_read_state) (v : trace_value) (j : Nat)
    (hsz : result.size = type.size) (hv : value_ok type v)
    (hj : j < (encode_value type v).length)
    (hd : state.file.data = (encode_value type v).take j) :
    (read_var_value type result state).2.error_code = TRACE_EOF := by
  cases v with
  | s v =>
    obtain ⟨hf, hw, _, _⟩ := hv
    simp only [encode_value] at hj hd
    rw [length_twos_complement] at hj
    have hlen : state.file.data.length < result.size := by
      rw [hd, hsz]; exact length_take_lt _ _ _ hj
    rw [← hsz] at hw
    unfold read_var_value
    rw [if_pos hf]
    rcases hw with h | h | h | h
    · rw [if_pos h]; exact read_signed_short 1 result state hlen
    · rw [if_neg (by omega), if_pos h]; exact read_signed_short 2 result state hlen
    · rw [if_neg (by omega), if_neg (by omega), if_pos h]
      exact read_signed_short 4 result state hlen
    · rw [if_neg (by omega), if_neg (by omega), if_neg (by omega), if_pos h]
      exact read_signed_short 8 result state hlen
  | u bits =>
    obtain ⟨hf, _, _, _⟩ := hv
    simp only [encode_value] at hj hd
    rw [length_le_bytes] at hj
    have hlen : state.file.data.length < result.size := by
      rw [hd, hsz]; exact length_take_lt _ _ _ hj
    have hns : ¬ type.format = SIGNED := by
      rcases hf with h | h | h <;> rw [h] <;> decide
    obtain ⟨st, h1, h2⟩ := FREAD_CHECK_short_code result.size state hlen
    unfold read_var_value
    rw [if_neg hns, if_pos hf, h1]
    exact h2
  | ptr blob =>
    obtain ⟨hf, hs32, hpos, hb32, hfix⟩ := hv
    obtain ⟨h1, h2⟩ := format_BLOB_cases type hf
    unfold read_var_value
    rw [if_neg h1, if_neg h2, if_pos hf, hsz, Nat.mod_eq_of_lt hs32]
    by_cases hz : type.size = 0
    · simp only [encode_value, if_pos hz] at hj hd
      rw [if_pos hz]
      rcases take_append_cases (le_bytes 4 blob.length) blob j with ⟨hlt, ht⟩ | ⟨hge, ht⟩
      · rw [length_le_bytes] at hlt
        have hlen : state.file.data.length < 4 := by
          rw [hd, ht]; exact length_take_lt _ _ _ hlt
        obtain ⟨st, h3, h4⟩ := FREAD_CHECK_short_code 4 state hlen
        rw [h3]
        exact h4
      · rw [length_le_bytes] at hge
        rw [ht] at hd
        rw [FREAD_CHECK_append 4 (by decide) state (le_bytes 4 blob.length) _
          (length_le_bytes _ _) hd]
        simp only
        have e3 : le_value (le_bytes 4 blob.length) = blob.length :=
          le_value_le_bytes_of_lt 4 _ (by norm_num at hb32 ⊢; omega)
        rw [e3]
        apply read_blob_short
        rw [set_data_data, List.length_take, length_le_bytes]
        rw [List.length_append, length_le_bytes] at hj
        omega
    · simp only [encode_value, if_neg hz] at hj hd
      rw [if_neg hz]
      apply read_blob_short
      rw [hd, ← hfix hz]
      exact length_take_lt _ _ _ hj

theorem read_var_info_truncated (state : trace_read_state) (ni ti : Nat) (v : trace_value)
    (k : Nat)
    (hni : ni < state.n_names) (hti : ti < state.n_types)
    (hni32 : ni < 2 ^ 32) (hti32 : ti < 2 ^ 32)
    (hv : value_ok (state.types.getD ti default) v)
    (hk : k < (le_bytes 4 ni ++
      (le_bytes 4 ti ++ encode_value (state.types.getD ti default) v)).length)
    (hd : state.file.data = (le_bytes 4 ni ++
      (le_bytes 4 ti ++ encode_value (state.types.getD ti default) v)).take k) :
    (read_var_info state).2.error_code = TRACE_EOF := by
  have e1 : le_value (le_bytes 4 ni) = ni :=
    le_value_le_bytes_of_lt 4 ni (by norm_num at hni32 ⊢; omega)
  have e2 : le_value (le_bytes 4 ti) = ti :=
    le_value_le_bytes_of_lt 4 ti (by norm_num at hti32 ⊢; omega)
  rcases take_append_cases (le_bytes 4 ni)
      (le_bytes 4 ti ++ encode_value (state.types.getD ti default) v) k with
    ⟨hlt, ht⟩ | ⟨hge, ht⟩
  · rw [length_le_bytes] at hlt
    have hlen : state.file.data.length < 4 := by
      rw [hd, ht]; exact length_take_lt _ _ _ hlt
    obtain ⟨st, h1, h2⟩ := FREAD_CHECK_short_code 4 state hlen
    unfold read_var_info
    rw [h1]
    exact h2
  · rw [length_le_bytes] at hge
    rw [ht, length_le_bytes] at hd
    rcases take_append_cases (le_bytes 4 ti)
        (encode_value (state.types.getD ti default) v) (k - 4) with
      ⟨hlt2, ht2⟩ | ⟨hge2, ht2⟩
    · rw [length_le_bytes] at hlt2
      rw [ht2] at hd
      have hlen : (set_data state ((le_bytes 4 ti).take (k - 4))).file.data.length < 4 := by
        rw [set_data_data]; exact length_take_lt _ _ _ hlt2
      obtain ⟨st, h1, h2⟩ := FREAD_CHECK_short_code 4 _ hlen
      unfold read_var_info
      rw [FREAD_CHECK_append 4 (by decide) state (le_bytes 4 ni) _ (length_le_bytes _ _) hd]
      simp only
      rw [h1]
      exact h2
    · rw [length_le_bytes] at hge2
      rw [ht2, length_le_bytes] at hd
      rw [read_var_info_indices state (le_bytes 4 ni) (le_bytes 4 ti) _ (length_le_bytes _ _)
        (length_le_bytes _ _) hd (by rw [e1]; exact hni) (by rw [e2]; exact hti), e1, e2]
      apply read_var_value_truncated _ _ _ v (k - 4 - 4) rfl hv
      · simp only [List.length_append, length_le_bytes] at hk
        omega
      · rfl

/-! ## Lemmas on `read_tag` -/

theorem read_tag_nil (state : trace_read_state) (hd : state.file.data = []) :
    read_tag state =
      (-1, { state with file := { state.file with eof := true }, error_code := TRACE_EOF }) := by
  unfold read_tag fgetc
  simp [hd, to_char, EOF]

theorem to_char_small (b : Byte) (hb : b.val < 128) : to_char (b.val : Int) = (b.val : Int) := by
  unfold to_char
  have h : ((b.val : Int)) % 256 = (b.val : Int) := Int.emod_eq_of_lt (by omega) (by omega)
  rw [h, if_pos (by omega)]

theorem to_char_large (b : Byte) (hb : 128 ≤ b.val) :
    to_char (b.val : Int) = (b.val : Int) - 256 := by
  unfold to_char
  have := b.isLt
  have h : ((b.val : Int)) % 256 = (b.val : Int) := Int.emod_eq_of_lt (by omega) (by omega)
  rw [h, if_neg (by omega)]

theorem read_tag_valid (state : trace_read_state) (b : Byte) (rest : List Byte)
    (hd : state.file.data = b :: rest) (hb : b.val < 5) :
    read_tag state = ((b.val : Int), set_data state rest) := by
  unfold read_tag fgetc
  rw [hd]
  simp only [to_char_small b (by omega), EOF, INVALID_TAG]
  rw [if_neg (by omega), if_neg (by omega)]
  rfl

theorem read_tag_invalid (state : trace_read_state) (b : Byte) (rest : List Byte)
    (hd : state.file.data = b :: rest) (hlo : 5 ≤ b.val) (hhi : b.val < 128) :
    read_tag state = ((b.val : Int), { set_data state rest with error_code := TRACE_ERROR }) := by
  unfold read_tag fgetc
  rw [hd]
  simp only [to_char_small b hhi, EOF, INVALID_TAG]
  rw [if_neg (by omega), if_pos (by omega)]
  rfl

theorem read_tag_negative (state : trace_read_state) (b : Byte) (rest : List Byte)
    (hd : state.file.data = b :: rest) (hlo : 128 ≤ b.val) (hhi : b.val < 255) :
    read_tag state = ((b.val : Int) - 256, set_data state rest) := by
  unfold read_tag fgetc
  rw [hd]
  simp only [to_char_large b hlo, EOF, INVALID_TAG]
  rw [if_neg (by omega), if_neg (by omega)]
  rfl

theorem read_tag_all_ones (state : trace_read_state) (b : Byte) (rest : List Byte)
    (hd : state.file.data = b :: rest) (hb : b.val = 255) :
    read_tag state = (-1, { set_data state rest with error_code := TRACE_EOF }) := by
  have hc : to_char (b.val : Int) = -1 := by
    rw [to_char_large b (by omega), hb]; rfl
  unfold read_tag fgetc
  rw [hd]
  simp only [hc, EOF, if_true]
  rfl

/-! ## One iteration of the loop of `read_trace_point` -/

theorem read_id_append (state : trace_read_state) (ib rest : List Byte)
    (hib : ib.length = 8) (hd : state.file.data = ib ++ rest) :
    read_id state = (le_value ib, set_data state rest) := by
  unfold read_id
  rw [FREAD_CHECK_append 8 (by decide) state ib rest hib hd]

theorem read_buffer_size_append (sz : Nat) (hsz : 0 < sz) (state : trace_read_state)
    (record rest : List Byte) (hr : record.length = sz)
    (hd : state.file.data = record ++ rest) :
    read_buffer_size sz state = (record, set_data state rest) := by
  unfold read_buffer_size
  rw [FREAD_CHECK_append sz hsz state record rest hr hd]

theorem tag_distinct :
    ¬ STATEMENT_ID = END_ENTRY ∧ ¬ VARIABLE = END_ENTRY ∧ ¬ VARIABLE = STATEMENT_ID ∧
      ¬ BUFFER_SIZE = END_ENTRY ∧ ¬ BUFFER_SIZE = STATEMENT_ID ∧ ¬ BUFFER_SIZE = VARIABLE ∧
      ¬ AUXILIARY = END_ENTRY ∧ ¬ AUXILIARY = STATEMENT_ID ∧ ¬ AUXILIARY = VARIABLE ∧
      ¬ AUXILIARY = BUFFER_SIZE := by decide

theorem loop_nil (sz fuel : Nat) (state : trace_read_state) (result rp : trace_point)
    (hd : state.file.data = []) :
    ∃ st, read_trace_point_loop sz (fuel + 1) state result rp = some (TRACE_EOF, st, rp) ∧
      st.error_code = TRACE_EOF := by
  refine ⟨{ state with file := { state.file with eof := true }, error_code := TRACE_EOF },
    ?_, rfl⟩
  rw [read_trace_point_loop, read_tag_nil state hd]
  simp

theorem loop_tag_invalid (sz fuel : Nat) (state : trace_read_state) (result rp : trace_point)
    (b : Byte) (rest : List Byte) (hd : state.file.data = b :: rest)
    (hlo : 5 ≤ b.val) (hhi : b.val < 128) :
    read_trace_point_loop sz (fuel + 1) state result rp =
      some (TRACE_ERROR, { set_data state rest with error_code := TRACE_ERROR }, rp) := by
  rw [read_trace_point_loop, read_tag_invalid state b rest hd hlo hhi]
  simp

theorem loop_tag_all_ones (sz fuel : Nat) (state : trace_read_state) (result rp : trace_point)
    (b : Byte) (rest : List Byte) (hd : state.file.data = b :: rest) (hb : b.val = 255) :
    read_trace_point_loop sz (fuel + 1) state result rp =
      some (TRACE_EOF, { set_data state rest with error_code := TRACE_EOF }, rp) := by
  rw [read_trace_point_loop, read_tag_all_ones state b rest hd hb]
  simp

theorem loop_tag_negative (sz fuel : Nat) (state : trace_read_state) (result rp : trace_point)
    (b : Byte) (rest : List Byte) (hok : state.error_code = TRACE_OK)
    (hd : state.file.data = b :: rest) (hlo : 128 ≤ b.val) (hhi : b.val < 255) :
    read_trace_point_loop sz (fuel + 1) state result rp =
      some (TRACE_OK, set_data state rest, rp) := by
  have hb := b.isLt
  rw [read_trace_point_loop, read_tag_negative state b rest hd hlo hhi]
  simp only [set_data_error_code, hok, ne_eq, not_true_eq_false, if_false, END_ENTRY,
    STATEMENT_ID, VARIABLE, BUFFER_SIZE, AUXILIARY]
  rw [if_neg (by omega), if_neg (by omega), if_neg (by omega), if_neg (by omega),
    if_neg (by omega)]

theorem loop_END_ENTRY (sz fuel : Nat) (state : trace_read_state) (result rp : trace_point)
    (d : List Byte) (hok : state.error_code = TRACE_OK)
    (hd : state.file.data = tag_byte END_ENTRY :: d) :
    read_trace_point_loop sz (fuel + 1) state result rp =
      some (TRACE_OK, set_data state d,
        { result with
          vars := state.var_buffer, sizes := state.size_buffer, aux := state.aux_buffer }) := by
  have ht : (((tag_byte END_ENTRY : Byte) : Nat) : Int) = END_ENTRY := by decide
  rw [read_trace_point_loop, read_tag_valid state _ _ hd (by decide)]
  simp only [set_data_error_code, hok, ht, ne_eq, not_true_eq_false, tag_distinct, if_true,
    if_false, Nat.add_sub_cancel, push]
  rfl

theorem loop_STATEMENT_ID (sz fuel : Nat) (state : trace_read_state) (result rp : trace_point)
    (d : List Byte) (hok : state.error_code = TRACE_OK)
    (hd : state.file.data = tag_byte STATEMENT_ID :: d) :
    read_trace_point_loop sz (fuel + 1) state result rp =
      if (read_id (set_data state d)).2.error_code ≠ TRACE_OK then
        some ((read_id (set_data state d)).2.error_code, (read_id (set_data state d)).2, rp)
      else
        read_trace_point_loop sz fuel (read_id (set_data state d)).2
          { result with statement := (read_id (set_data state d)).1 } rp := by
  have ht : (((tag_byte STATEMENT_ID : Byte) : Nat) : Int) = STATEMENT_ID := by decide
  rw [read_trace_point_loop, read_tag_valid state _ _ hd (by decide)]
  simp only [set_data_error_code, hok, ht, ne_eq, not_true_eq_false, tag_distinct, if_true,
    if_false, Nat.add_sub_cancel, push]

theorem loop_VARIABLE (sz fuel : Nat) (state : trace_read_state) (result rp : trace_point)
    (d : List Byte) (hok : state.error_code = TRACE_OK)
    (hd : state.file.data = tag_byte VARIABLE :: d) :
    read_trace_point_loop sz (fuel + 1) state result rp =
      if (read_var_info (set_data state d)).2.error_code ≠ TRACE_OK then
        some ((read_var_info (set_data state d)).2.error_code,
          (read_var_info (set_data state d)).2, rp)
      else
        read_trace_point_loop sz fuel
          { (read_var_info (set_data state d)).2 with
            var_buffer :=
              push (read_var_info (set_data state d)).2.var_buffer result.n_vars
                (read_var_info (set_data state d)).1 }
          { result with n_vars := result.n_vars + 1 } rp := by
  have ht : (((tag_byte VARIABLE : Byte) : Nat) : Int) = VARIABLE := by decide
  rw [read_trace_point_loop, read_tag_valid state _ _ hd (by decide)]
  simp only [set_data_error_code, hok, ht, ne_eq, not_true_eq_false, tag_distinct, if_true,
    if_false, Nat.add_sub_cancel, push]

theorem loop_BUFFER_SIZE (sz fuel : Nat) (state : trace_read_state) (result rp : trace_point)
    (d : List Byte) (hok : state.error_code = TRACE_OK)
    (hd : state.file.data = tag_byte BUFFER_SIZE :: d) :
    read_trace_point_loop sz (fuel + 1) state result rp =
      if (read_buffer_size sz (set_data state d)).2.error_code ≠ TRACE_OK then
        some ((read_buffer_size sz (set_data state d)).2.error_code,
          (read_buffer_size sz (set_data state d)).2, rp)
      else
        read_trace_point_loop sz fuel
          { (read_buffer_size sz (set_data state d)).2 with
            size_buffer :=
              push (read_buffer_size sz (set_data state d)).2.size_buffer result.n_sizes
                (read_buffer_size sz (set_data state d)).1 }
          { result with n_sizes := result.n_sizes + 1 } rp := by
  have ht : (((tag_byte BUFFER_SIZE : Byte) : Nat) : Int) = BUFFER_SIZE := by decide
  rw [read_trace_point_loop, read_tag_valid state _ _ hd (by decide)]
  simp only [set_data_error_code, hok, ht, ne_eq, not_true_eq_false, tag_distinct, if_true,
    if_false, Nat.add_sub_cancel, push]

theorem loop_AUXILIARY (sz fuel : Nat) (state : trace_read_state) (result rp : trace_point)
    (d : List Byte) (hok : state.error_code = TRACE_OK)
    (hd : state.file.data = tag_byte AUXILIARY :: d) :
    read_trace_point_loop sz (fuel + 1) state result rp =
      match FREAD_CHECK 8 1 (set_data state d) with
      | (none, st) => some (st.error_code, st, rp)
      | (some value, st) =>
        read_trace_point_loop sz fuel
          { st with aux_buffer := push st.aux_buffer result.n_aux (le_value value) }
          { result with n_aux := result.n_aux + 1 } rp := by
  have ht : (((tag_byte AUXILIARY : Byte) : Nat) : Int) = AUXILIARY := by decide
  rw [read_trace_point_loop, read_tag_valid state _ _ hd (by decide)]
  simp only [set_data_error_code, hok, ht, ne_eq, not_true_eq_false, tag_distinct, if_true,
    if_false, Nat.add_sub_cancel, push]

theorem loop_entry (sz fuel : Nat) (state : trace_read_state) (result rp : trace_point)
    (e : Entry) (rest : List Byte) (hok : state.error_code = TRACE_OK)
    (he : entry_ok sz state e)
    (hd : state.file.data = encode_entry state.types e ++ rest) :
    read_trace_point_loop sz (fuel + 1) state result rp =
      read_trace_point_loop sz fuel
        (set_data (apply_entry state.types e state result).1 rest)
        (apply_entry state.types e state result).2 rp := by
  cases e with
  | statement id =>
    have hd1 : state.file.data = tag_byte STATEMENT_ID :: (le_bytes 8 id ++ rest) := hd
    have hid : le_value (le_bytes 8 id) = id :=
      le_value_le_bytes_of_lt 8 id (by have : id < 2 ^ 64 := he; norm_num at this ⊢; omega)
    rw [loop_STATEMENT_ID sz fuel state result rp _ hok hd1,
      read_id_append (set_data state (le_bytes 8 id ++ rest)) (le_bytes 8 id) rest
        (length_le_bytes _ _) rfl]
    simp only [set_data_error_code, set_data_set_data, hok, hid, apply_entry]
    rfl
  | var ni ti v =>
    obtain ⟨hni, hti, hni32, hti32, hv⟩ := he
    have hd1 : state.file.data = tag_byte VARIABLE ::
        (le_bytes 4 ni ++ (le_bytes 4 ti ++
          (encode_value (state.types.getD ti default) v ++ rest))) := by
      rw [hd]; simp only [encode_entry, List.cons_append, List.append_assoc]
    rw [loop_VARIABLE sz fuel state result rp _ hok hd1,
      read_var_info_entry (set_data state (le_bytes 4 ni ++ (le_bytes 4 ti ++
          (encode_value (state.types.getD ti default) v ++ rest)))) ni ti v rest hni hti
        hni32 hti32 hv rfl]
    simp only [set_data_error_code, set_data_set_data, hok, apply_entry]
    rfl
  | buffer_size record =>
    obtain ⟨hsz, hr⟩ := he
    have hd1 : state.file.data = tag_byte BUFFER_SIZE :: (record ++ rest) := hd
    rw [loop_BUFFER_SIZE sz fuel state result rp _ hok hd1,
      read_buffer_size_append sz hsz (set_data state (record ++ rest)) record rest hr rfl]
    simp only [set_data_error_code, set_data_set_data, hok, apply_entry]
    rfl
  | auxiliary value =>
    have hd1 : state.file.data = tag_byte AUXILIARY :: (le_bytes 8 value ++ rest) := hd
    have hid : le_value (le_bytes 8 value) = value :=
      le_value_le_bytes_of_lt 8 value
        (by have : value < 2 ^ 64 := he; norm_num at this ⊢; omega)
    rw [loop_AUXILIARY sz fuel state result rp _ hok hd1,
      FREAD_CHECK_append 8 (by decide) (set_data state (le_bytes 8 value ++ rest))
        (le_bytes 8 value) rest (length_le_bytes _ _) rfl]
    simp only [set_data_error_code, set_data_set_data, hok, hid, apply_entry]
    rfl

theorem loop_entry_truncated (sz fuel : Nat) (state : trace_read_state)
    (result rp : trace_point) (e : Entry) (k : Nat)
    (hok : state.error_code = TRACE_OK) (he : entry_ok sz state e)
    (hk : k < (encode_entry state.types e).length)
    (hd : state.file.data = (encode_entry state.types e).take k) :
    ∃ st, read_trace_point_loop sz (fuel + 1) state result rp = some (TRACE_EOF, st, rp) ∧
      st.error_code = TRACE_EOF := by
  cases k with
  | zero =>
    rw [List.take_zero] at hd
    exact loop_nil sz fuel state result rp hd
  | succ k =>
    cases e with
    | statement id =>
      simp only [encode_entry, List.take_succ_cons, List.length_cons, length_le_bytes] at hk hd
      have hlen : (set_data state ((le_bytes 8 id).take k)).file.data.length < 8 := by
        rw [set_data_data]; exact length_take_lt _ _ _ (by omega)
      obtain ⟨st, h1, h2⟩ := FREAD_CHECK_short_code 8 _ hlen
      refine ⟨st, ?_, h2⟩
      rw [loop_STATEMENT_ID sz fuel state result rp _ hok hd]
      unfold read_id
      rw [h1]
      simp only [h2, ne_eq, reduceCtorEq, not_false_eq_true, if_true]
    | var ni ti v =>
      obtain ⟨hni, hti, hni32, hti32, hv⟩ := he
      simp only [encode_entry, List.take_succ_cons, List.length_cons] at hk hd
      have h2 := read_var_info_truncated
        (set_data state ((le_bytes 4 ni ++
          (le_bytes 4 ti ++ encode_value (state.types.getD ti default) v)).take k))
        ni ti v k hni hti hni32 hti32 hv (by simp only [set_data_types]; omega) rfl
      refine ⟨_, ?_, h2⟩
      rw [loop_VARIABLE sz fuel state result rp _ hok hd]
      simp only [h2, ne_eq, reduceCtorEq, not_false_eq_true, if_true]
    | buffer_size record =>
      obtain ⟨hsz, hr⟩ := he
      simp only [encode_entry, List.take_succ_cons, List.length_cons] at hk hd
      have hlen : (set_data state (record.take k)).file.data.length < sz := by
        rw [set_data_data]; exact length_take_lt _ _ _ (by omega)
      obtain ⟨st, h1, h2⟩ := FREAD_CHECK_short_code sz _ hlen
      refine ⟨st, ?_, h2⟩
      rw [loop_BUFFER_SIZE sz fuel state result rp _ hok hd]
      unfold read_buffer_size
      rw [h1]
      simp only [h2, ne_eq, reduceCtorEq, not_false_eq_true, if_true]
    | auxiliary value =>
      simp only [encode_entry, List.take_succ_cons, List.length_cons, length_le_bytes] at hk hd
      have hlen : (set_data state ((le_bytes 8 value).take k)).file.data.length < 8 := by
        rw [set_data_data]; exact length_take_lt _ _ _ (by omega)
      obtain ⟨st, h1, h2⟩ := FREAD_CHECK_short_code 8 _ hlen
      refine ⟨st, ?_, h2⟩
      rw [loop_AUXILIARY sz fuel state result rp _ hok hd, h1]
      simp only [h2]

/-! ## The record buffers -/

theorem take_succ_set {α : Type} (l : List α) (n : Nat) (y : α) (h : n < l.length) :
    (l.set n y).take (n + 1) = l.take n ++ [y] := by
  induction l generalizing n with
  | nil => simp at h
  | cons a l ih =>
    cases n with
    | zero => simp
    | succ n =>
      simp only [List.length_cons] at h
      simp [ih n (by omega)]

theorem length_ENSURE_BUFFER_SIZE {α : Type} (buffer : List (Option α)) (needed : Nat) :
    needed ≤ (ENSURE_BUFFER_SIZE buffer needed).length ∧
      buffer.length ≤ (ENSURE_BUFFER_SIZE buffer needed).length := by
  unfold ENSURE_BUFFER_SIZE
  split
  · simp only [List.length_append, List.length_replicate]
    omega
  · omega

theorem take_ENSURE_BUFFER_SIZE {α : Type} (buffer : List (Option α)) (needed n : Nat)
    (h : n ≤ buffer.length) :
    (ENSURE_BUFFER_SIZE buffer needed).take n = buffer.take n := by
  unfold ENSURE_BUFFER_SIZE
  split
  · exact List.take_append_of_le_length h
  · rfl

theorem length_push {α : Type} (buffer : List (Option α)) (n : Nat) (x : α) :
    n + 1 ≤ (push buffer n x).length ∧ buffer.length ≤ (push buffer n x).length := by
  unfold push
  rw [List.length_set]
  exact length_ENSURE_BUFFER_SIZE buffer (n + 1)

theorem take_push {α : Type} (buffer : List (Option α)) (n : Nat) (x : α)
    (h : n ≤ buffer.length) :
    (push buffer n x).take (n + 1) = buffer.take n ++ [some x] := by
  unfold push
  rw [take_succ_set _ _ _ (by have := (length_ENSURE_BUFFER_SIZE buffer (n + 1)).1; omega),
    take_ENSURE_BUFFER_SIZE buffer (n + 1) n h]

theorem accumulates_apply_entries (types : List type_description) (es : List Entry) :
    ∀ (state : trace_read_state) (result : trace_point),
      result.n_vars ≤ state.var_buffer.length →
      result.n_sizes ≤ state.size_buffer.length →
      result.n_aux ≤ state.aux_buffer.length →
      Accumulates types es state result (apply_entries types es state result).1
        (apply_entries types es state result).2 := by
  induction es with
  | nil =>
    intro state result hv hs ha
    constructor <;> simp [apply_entries, statement_of, vars_of, sizes_of, aux_of, hv, hs, ha]
  | cons e es ih =>
    intro state result hv hs ha
    cases e with
    | statement id =>
      have h := ih (apply_entry types (Entry.statement id) state result).1
        (apply_entry types (Entry.statement id) state result).2 hv hs ha
      constructor
      · exact h.file_eq
      · exact h.names_eq
      · exact h.types_eq
      · exact h.error_code_eq
      · exact h.statement_eq
      · exact h.n_vars_eq
      · exact h.n_sizes_eq
      · exact h.n_aux_eq
      · exact h.n_vars_le
      · exact h.n_sizes_le
      · exact h.n_aux_le
      · exact h.vars_eq
      · exact h.sizes_eq
      · exact h.aux_eq
      · exact h.var_capacity
      · exact h.size_capacity
      · exact h.aux_capacity
    | var ni ti v =>
      have hl := length_push state.var_buffer result.n_vars (decoded_var types ni ti v)
      have ht := take_push state.var_buffer result.n_vars (decoded_var types ni ti v) hv
      have h := ih (apply_entry types (Entry.var ni ti v) state result).1
        (apply_entry types (Entry.var ni ti v) state result).2 hl.1 hs ha
      constructor
      · exact h.file_eq
      · exact h.names_eq
      · exact h.types_eq
      · exact h.error_code_eq
      · exact h.statement_eq
      · have := h.n_vars_eq
        simp only [apply_entries, apply_entry, vars_of, List.length_cons] at this ⊢
        omega
      · exact h.n_sizes_eq
      · exact h.n_aux_eq
      · exact h.n_vars_le
      · exact h.n_sizes_le
      · exact h.n_aux_le
      · have := h.vars_eq
        simp only [apply_entries, apply_entry, vars_of, List.map_cons] at this ⊢
        rw [this, ht, List.append_assoc]
        rfl
      · exact h.sizes_eq
      · exact h.aux_eq
      · exact le_trans hl.2 h.var_capacity
      · exact h.size_capacity
      · exact h.aux_capacity
    | buffer_size record =>
      have hl := length_push state.size_buffer result.n_sizes record
      have ht := take_push state.size_buffer result.n_sizes record hs
      have h := ih (apply_entry types (Entry.buffer_size record) state result).1
        (apply_entry types (Entry.buffer_size record) state result).2 hv hl.1 ha
      constructor
      · exact h.file_eq
      · exact h.names_eq
      · exact h.types_eq
      · exact h.error_code_eq
      · exact h.statement_eq
      · exact h.n_vars_eq
      · have := h.n_sizes_eq
        simp only [apply_entries, apply_entry, sizes_of, List.length_cons] at this ⊢
        omega
      · exact h.n_aux_eq
      · exact h.n_vars_le
      · exact h.n_sizes_le
      · exact h.n_aux_le
      · exact h.vars_eq
      · have := h.sizes_eq
        simp only [apply_entries, apply_entry, sizes_of, List.map_cons] at this ⊢
        rw [this, ht, List.append_assoc]
        rfl
      · exact h.aux_eq
      · exact h.var_capacity
      · exact le_trans hl.2 h.size_capacity
      · exact h.aux_capacity
    | auxiliary value =>
      have hl := length_push state.aux_buffer result.n_aux value
      have ht := take_push state.aux_buffer result.n_aux value ha
      have h := ih (apply_entry types (Entry.auxiliary value) state result).1
        (apply_entry types (Entry.auxiliary value) state result).2 hv hs hl.1
      constructor
      · exact h.file_eq
      · exact h.names_eq
      · exact h.types_eq
      · exact h.error_code_eq
      · exact h.statement_eq
      · exact h.n_vars_eq
      · exact h.n_sizes_eq
      · have := h.n_aux_eq
        simp only [apply_entries, apply_entry, aux_of, List.length_cons] at this ⊢
        omega
      · exact h.n_vars_le
      · exact h.n_sizes_le
      · exact h.n_aux_le
      · exact h.vars_eq
      · exact h.sizes_eq
      · have := h.aux_eq
        simp only [apply_entries, apply_entry, aux_of, List.map_cons] at this ⊢
        rw [this, ht, List.append_assoc]
        rfl
      · exact h.var_capacity
      · exact h.size_capacity
      · exact le_trans hl.2 h.aux_capacity

/-! ## Decoding a sequence of entries -/

theorem entry_ok_congr (sz : Nat) (s s' : trace_read_state) (e : Entry)
    (hn : s'.names = s.names) (ht : s'.types = s.types) (h : entry_ok sz s e) :
    entry_ok sz s' e := by
  cases e with
  | statement id => exact h
  | var ni ti v =>
    simp only [entry_ok, trace_read_state.n_names, trace_read_state.n_types, hn, ht] at h ⊢
    exact h
  | buffer_size record => exact h
  | auxiliary value => exact h

theorem apply_entry_set_data (types : List type_description) (e : Entry)
    (state : trace_read_state) (result : trace_point) (d : List Byte) :
    apply_entry types e (set_data state d) result =
      (set_data (apply_entry types e state result).1 d, (apply_entry types e state result).2) := by
  cases e <;> rfl

theorem apply_entries_set_data (types : List type_description) (es : List Entry) :
    ∀ (state : trace_read_state) (result : trace_point) (d : List Byte),
      apply_entries types es (set_data state d) result =
        (set_data (apply_entries types es state result).1 d,
          (apply_entries types es state result).2) := by
  induction es with
  | nil => intro state result d; rfl
  | cons e es ih =>
    intro state result d
    simp only [apply_entries, apply_entry_set_data, ih]

theorem apply_entry_frame (types : List type_description) (e : Entry)
    (state : trace_read_state) (result : trace_point) :
    (apply_entry types e state result).1.names = state.names ∧
      (apply_entry types e state result).1.types = state.types ∧
      (apply_entry types e state result).1.error_code = state.error_code := by
  cases e <;> exact ⟨rfl, rfl, rfl⟩

theorem after_entries_frame (types : List type_description) (es : List Entry)
    (state : trace_read_state) (result : trace_point) :
    (apply_entries types es state result).1.names = state.names ∧
      (apply_entries types es state result).1.types = state.types ∧
      (apply_entries types es state result).1.error_code = state.error_code ∧
      (apply_entries types es state result).1.file = state.file := by
  induction es generalizing state result with
  | nil => exact ⟨rfl, rfl, rfl, rfl⟩
  | cons e es ih =>
    have h1 := apply_entry_frame types e state result
    have h2 := ih (apply_entry types e state result).1 (apply_entry types e state result).2
    have h3 : (apply_entry types e state result).1.file = state.file := by cases e <;> rfl
    simp only [apply_entries]
    exact ⟨h2.1.trans h1.1, h2.2.1.trans h1.2.1, h2.2.2.1.trans h1.2.2, h2.2.2.2.trans h3⟩

theorem length_encode_entry_pos (types : List type_description) (e : Entry) :
    0 < (encode_entry types e).length := by
  cases e <;> simp [encode_entry]

theorem length_le_encode_entries (types : List type_description) (es : List Entry) :
    es.length ≤ (encode_entries types es).length := by
  induction es with
  | nil => simp
  | cons e es ih =>
    have := length_encode_entry_pos types e
    simp only [encode_entries, List.length_append, List.length_cons]
    omega

theorem loop_entries (sz : Nat) (rp : trace_point) (es : List Entry) :
    ∀ (fuel : Nat) (state : trace_read_state) (result : trace_point) (rest : List Byte),
      state.error_code = TRACE_OK →
      (∀ e ∈ es, entry_ok sz state e) →
      state.file.data = encode_entries state.types es ++ rest →
      read_trace_point_loop sz (es.length + fuel) state result rp =
        read_trace_point_loop sz fuel
          (set_data (apply_entries state.types es state result).1 rest)
          (apply_entries state.types es state result).2 rp := by
  induction es with
  | nil =>
    intro fuel state result rest _ _ hd
    simp only [encode_entries, List.nil_append] at hd
    simp only [List.length_nil, Nat.zero_add, apply_entries]
    rw [set_data_self state rest hd]
  | cons e es ih =>
    intro fuel state result rest hok hes hd
    have hd1 : state.file.data =
        encode_entry state.types e ++ (encode_entries state.types es ++ rest) := by
      rw [hd, encode_entries, List.append_assoc]
    have hfr := apply_entry_frame state.types e state result
    have hlen : (e :: es).length + fuel = (es.length + fuel) + 1 := by
      simp only [List.length_cons]; omega
    rw [hlen, loop_entry sz _ state result rp e _ hok (hes e (List.mem_cons_self e es)) hd1]
    have hok1 : (set_data (apply_entry state.types e state result).1
        (encode_entries state.types es ++ rest)).error_code = TRACE_OK := by
      rw [set_data_error_code, hfr.2.2, hok]
    have hty : (set_data (apply_entry state.types e state result).1
        (encode_entries state.types es ++ rest)).types = state.types := by
      rw [set_data_types, hfr.2.1]
    have hes1 : ∀ x ∈ es, entry_ok sz (set_data (apply_entry state.types e state result).1
        (encode_entries state.types es ++ rest)) x := by
      intro x hx
      exact entry_ok_congr sz state _ x hfr.1 hty (hes x (List.mem_cons_of_mem e hx))
    have hd2 : (set_data (apply_entry state.types e state result).1
        (encode_entries state.types es ++ rest)).file.data =
        encode_entries (set_data (apply_entry state.types e state result).1
          (encode_entries state.types es ++ rest)).types es ++ rest := by
      rw [hty]; rfl
    rw [ih fuel _ _ rest hok1 hes1 hd2, hty, apply_entries_set_data]
    simp only [set_data_set_data, apply_entries]

theorem loop_truncated (sz : Nat) (rp : trace_point) (es : List Entry) :
    ∀ (k fuel : Nat) (state : trace_read_state) (result : trace_point),
      state.error_code = TRACE_OK →
      (∀ e ∈ es, entry_ok sz state e) →
      k < (encode_point state.types es).length →
      state.file.data = (encode_point state.types es).take k →
      k < fuel →
      ∃ st, read_trace_point_loop sz fuel state result rp = some (TRACE_EOF, st, rp) ∧
        st.error_code = TRACE_EOF := by
  induction es with
  | nil =>
    intro k fuel state result _ _ hk hd hfuel
    obtain ⟨f, rfl⟩ : ∃ f, fuel = f + 1 := ⟨fuel - 1, by omega⟩
    have hk0 : k = 0 := by
      simp only [encode_point, encode_entries, List.nil_append, List.length_singleton] at hk
      omega
    rw [hk0, List.take_zero] at hd
    exact loop_nil sz f state result rp hd
  | cons e es ih =>
    intro k fuel state result hok hes hk hd hfuel
    obtain ⟨f, rfl⟩ : ∃ f, fuel = f + 1 := ⟨fuel - 1, by omega⟩
    have henc : encode_point state.types (e :: es) =
        encode_entry state.types e ++ encode_point state.types es := by
      simp only [encode_point, encode_entries, List.append_assoc]
    rw [henc] at hk hd
    rcases take_append_cases (encode_entry state.types e) (encode_point state.types es) k with
      ⟨hlt, ht⟩ | ⟨hge, ht⟩
    · rw [ht] at hd
      exact loop_entry_truncated sz f state result rp e k hok
        (hes e (List.mem_cons_self e es)) hlt hd
    · rw [ht] at hd
      have hpos := length_encode_entry_pos state.types e
      have hfr := apply_entry_frame state.types e state result
      rw [loop_entry sz f state result rp e _ hok (hes e (List.mem_cons_self e es)) hd]
      have hty : (set_data (apply_entry state.types e state result).1
          ((encode_point state.types es).take
            (k - (encode_entry state.types e).length))).types = state.types := by
        rw [set_data_types, hfr.2.1]
      apply ih (k - (encode_entry state.types e).length) f
      · rw [set_data_error_code, hfr.2.2, hok]
      · intro x hx
        exact entry_ok_congr sz state _ x hfr.1 hty (hes x (List.mem_cons_of_mem e hx))
      · rw [hty]
        rw [List.length_append] at hk
        omega
      · rw [hty]; rfl
      · omega

/-! ## Decoding one trace point -/

theorem read_trace_point_nil (sz : Nat) (state : trace_read_state) (rp : trace_point)
    (hd : state.file.data = []) :
    read_trace_point sz state rp =
      some (TRACE_EOF,
        { state with file := { state.file with eof := true }, error_code := TRACE_EOF }, rp) := by
  unfold read_trace_point
  rw [hd, List.length_nil, read_trace_point_loop, read_tag_nil state hd]
  simp

theorem read_trace_point_after_entries (sz : Nat) (state : trace_read_state)
    (rp : trace_point) (es : List Entry) (rest : List Byte)
    (hok : state.error_code = TRACE_OK) (hes : ∀ e ∈ es, entry_ok sz state e)
    (hd : state.file.data = encode_entries state.types es ++ rest) :
    ∃ fuel, rest.length ≤ fuel ∧
      read_trace_point sz state rp =
        read_trace_point_loop sz (fuel + 1)
          (set_data (apply_entries state.types es state empty_point).1 rest)
          (apply_entries state.types es state empty_point).2 rp := by
  have hlen : es.length + rest.length ≤ state.file.data.length := by
    have := length_le_encode_entries state.types es
    rw [hd, List.length_append]
    omega
  refine ⟨state.file.data.length - es.length, by omega, ?_⟩
  have hfuel : state.file.data.length + 1 =
      es.length + ((state.file.data.length - es.length) + 1) := by omega
  unfold read_trace_point
  rw [hfuel]
  exact loop_entries sz rp es _ state empty_point rest hok hes hd

theorem read_trace_point_point (sz : Nat) (state : trace_read_state) (rp : trace_point)
    (p : List Entry) (rest : List Byte) (hok : state.error_code = TRACE_OK)
    (hp : ∀ e ∈ p, entry_ok sz state e)
    (hd : state.file.data = encode_point state.types p ++ rest) :
    ∃ state' tp, read_trace_point sz state rp = some (TRACE_OK, state', tp) ∧
      point_matches state.types tp p ∧
      state'.file = { state.file with data := rest } ∧
      state'.names = state.names ∧ state'.types = state.types ∧
      state'.error_code = TRACE_OK := by
  have hd1 : state.file.data =
      encode_entries state.types p ++ (tag_byte END_ENTRY :: rest) := by
    rw [hd, encode_point, List.append_assoc]; rfl
  have hlen : p.length + 1 ≤ state.file.data.length := by
    have := length_le_encode_entries state.types p
    rw [hd1, List.length_append, List.length_cons]
    omega
  have hfuel : state.file.data.length + 1 = p.length + ((state.file.data.length - p.length) + 1) := by
    omega
  have hacc := accumulates_apply_entries state.types p state empty_point
    (Nat.zero_le _) (Nat.zero_le _) (Nat.zero_le _)
  have hok1 : (set_data (apply_entries state.types p state empty_point).1
      (tag_byte END_ENTRY :: rest)).error_code = TRACE_OK := by
    rw [set_data_error_code, hacc.error_code_eq, hok]
  refine ⟨set_data (apply_entries state.types p state empty_point).1 rest,
    { (apply_entries state.types p state empty_point).2 with
      vars := (apply_entries state.types p state empty_point).1.var_buffer
      sizes := (apply_entries state.types p state empty_point).1.size_buffer
      aux := (apply_entries state.types p state empty_point).1.aux_buffer }, ?_, ?_, ?_, ?_, ?_, ?_⟩
  · unfold read_trace_point
    rw [hfuel]
    have := loop_entries sz rp p ((state.file.data.length - p.length) + 1) state empty_point
      (tag_byte END_ENTRY :: rest) hok hp hd1
    rw [empty_point] at this
    rw [this, ← empty_point]
    rw [loop_END_ENTRY sz _ _ _ rp rest hok1 rfl]
    rfl
  · refine ⟨?_, ?_, ?_, ?_, ?_, ?_, ?_⟩
    · exact hacc.statement_eq
    · have := hacc.n_vars_eq
      simp only [empty_point, Nat.zero_add] at this
      exact this
    · have := hacc.n_sizes_eq
      simp only [empty_point, Nat.zero_add] at this
      exact this
    · have := hacc.n_aux_eq
      simp only [empty_point, Nat.zero_add] at this
      exact this
    · have := hacc.vars_eq
      simp only [empty_point, List.take_zero, List.nil_append] at this
      exact this
    · have := hacc.sizes_eq
      simp only [empty_point, List.take_zero, List.nil_append] at this
      exact this
    · have := hacc.aux_eq
      simp only [empty_point, List.take_zero, List.nil_append] at this
      exact this
  · simp only [set_data, hacc.file_eq]
  · exact hacc.names_eq
  · exact hacc.types_eq
  · rw [set_data_error_code, hacc.error_code_eq, hok]

/-! ## Lemmas on `start_reading` -/

theorem count_strings_loop_eq (buf : List Byte) (hlen : buf.length < 2 ^ 32) (d : Nat) :
    ∀ (i n fuel : Nat), i + d = buf.length → n ≤ i → d < fuel →
      count_strings_loop buf buf.length fuel i n = some (n + (buf.drop i).count 0) := by
  induction d with
  | zero =>
    intro i n fuel hi _ hfuel
    obtain ⟨f, rfl⟩ : ∃ f, fuel = f + 1 := ⟨fuel - 1, by omega⟩
    have hi' : i = buf.length := by omega
    rw [count_strings_loop, if_neg (by omega), hi', List.drop_length]
    simp
  | succ d ih =>
    intro i n fuel hi hn hfuel
    obtain ⟨f, rfl⟩ : ∃ f, fuel = f + 1 := ⟨fuel - 1, by omega⟩
    have hlt : i < buf.length := by omega
    have hdrop : buf.drop i = buf[i] :: buf.drop (i + 1) := List.drop_eq_getElem_cons hlt
    have hget : buf.getD i 0 = buf[i] := by
      rw [List.getD_eq_getElem?_getD, List.getElem?_eq_getElem hlt]; rfl
    rw [count_strings_loop, if_pos hlt, Nat.mod_eq_of_lt (by omega), hget, hdrop]
    by_cases hz : buf[i] = 0
    · rw [if_pos hz, Nat.mod_eq_of_lt (by omega), ih (i + 1) (n + 1) f (by omega) (by omega)
        (by omega), hz, List.count_cons_self]
      congr 1
      omega
    · rw [if_neg hz, ih (i + 1) n f (by omega) (by omega) (by omega),
        List.count_cons_of_ne (fun h => hz h.symm)]

theorem count_strings_loop_blob (buf : List Byte) (hlen : buf.length < 2 ^ 32) :
    count_strings_loop buf buf.length (buf.length + 1) 0 0 = some (buf.count 0) := by
  rw [count_strings_loop_eq buf hlen buf.length 0 0 _ (by omega) (le_refl _) (by omega)]
  simp

theorem count_strings_loop_no_exit (buf : List Byte) (n_chars : Nat)
    (h : 2 ^ 32 ≤ n_chars) :
    ∀ (fuel i n : Nat), i < 2 ^ 32 → count_strings_loop buf n_chars fuel i n = none := by
  intro fuel
  induction fuel with
  | zero => intro i n _; rfl
  | succ f ih =>
    intro i n hi
    rw [count_strings_loop, if_pos (by omega)]
    exact ih _ _ (Nat.mod_lt _ (by norm_num))

theorem scan_name_of_mem (buf : List Byte) (h : (0 : Byte) ∈ buf) :
    ∃ name rest, scan_name buf = some (name, rest) ∧ buf = name ++ 0 :: rest ∧
      (0 : Byte) ∉ name := by
  induction buf with
  | nil => simp at h
  | cons b bs ih =>
    by_cases hb : b = 0
    · refine ⟨[], bs, ?_, ?_, by simp⟩
      · rw [scan_name, if_pos hb]
      · rw [hb]; rfl
    · have hmem : (0 : Byte) ∈ bs := by
        rcases List.mem_cons.mp h with h1 | h1
        · exact absurd h1.symm hb
        · exact h1
      obtain ⟨name, rest, h1, h2, h3⟩ := ih hmem
      refine ⟨b :: name, rest, ?_, ?_, ?_⟩
      · rw [scan_name, if_neg hb, h1]
      · rw [h2]; rfl
      · intro hm
        rcases List.mem_cons.mp hm with h4 | h4
        · exact hb h4.symm
        · exact h3 h4

theorem scan_names_of_le (n : Nat) :
    ∀ (buf : List Byte), n ≤ buf.count 0 →
      ∃ names rest, scan_names n buf = some names ∧ names.length = n ∧
        buf = (names.map (fun name => name ++ [0])).flatten ++ rest ∧
        (∀ name ∈ names, (0 : Byte) ∉ name) ∧ rest.count 0 = buf.count 0 - n := by
  induction n with
  | zero =>
    intro buf _
    exact ⟨[], buf, rfl, rfl, by simp, by simp, by simp⟩
  | succ n ih =>
    intro buf hle
    have hmem : (0 : Byte) ∈ buf := List.count_pos_iff.mp (by omega)
    obtain ⟨name, rest, h1, h2, h3⟩ := scan_name_of_mem buf hmem
    have hcount : buf.count 0 = rest.count 0 + 1 := by
      rw [h2, List.count_append, List.count_eq_zero_of_not_mem h3, List.count_cons_self]
      omega
    obtain ⟨names, tail, h4, h5, h6, h7, h8⟩ := ih rest (by omega)
    refine ⟨name :: names, tail, ?_, ?_, ?_, ?_, ?_⟩
    · rw [scan_names, h1]
      simp only [h4]
    · simp [h5]
    · rw [h2]
      conv_lhs => rw [h6]
      simp
    · intro x hx
      rcases List.mem_cons.mp hx with h9 | h9
      · rw [h9]; exact h3
      · exact h7 x h9
    · rw [h8, hcount]
      omega

theorem fread_bytes (n : Nat) (f : FILE) (a rest : List Byte) (ha : a.length = n)
    (hd : f.data = a ++ rest) :
    fread 1 n f = (a, n, { f with data := rest }) := by
  unfold fread
  by_cases hn : n = 0
  · have ha0 : a = [] := List.length_eq_zero.mp (by omega)
    rw [if_pos (Or.inr hn), ha0, hn]
    rw [ha0] at hd
    cases f with
    | mk data eof =>
      simp only [List.nil_append] at hd
      rw [hd]
  · rw [if_neg (by omega), if_pos (by rw [hd, List.length_append]; omega), hd]
    simp [← ha]

theorem fread_bytes_short (n : Nat) (f : FILE) (h : f.data.length < n) :
    (fread 1 n f).2.1 ≠ n := by
  unfold fread
  rw [if_neg (by omega), if_neg (by omega)]
  simp only [Nat.div_one]
  omega

theorem FREAD_CHECK_items (size nmemb : Nat) (hs : 0 < size) (state : trace_read_state)
    (a rest : List Byte) (ha : a.length = size * nmemb) (hd : state.file.data = a ++ rest) :
    FREAD_CHECK size nmemb state = (some a, set_data state rest) := by
  by_cases hn : nmemb = 0
  · have ha0 : a = [] := List.length_eq_zero.mp (by rw [ha, hn]; rfl)
    rw [ha0, List.nil_append] at hd
    have h1 : fread size nmemb state.file = ([], 0, state.file) := by
      unfold fread
      rw [if_pos (Or.inr hn)]
    unfold FREAD_CHECK
    rw [h1, hn, ha0]
    simp only [ne_eq, not_true_eq_false, if_false]
    rw [set_data_self state rest hd]
  · have h1 : fread size nmemb state.file = (a, nmemb, { state.file with data := rest }) := by
      unfold fread
      rw [if_neg (by omega), if_pos (by rw [hd, List.length_append]; omega), hd]
      simp [← ha]
    unfold FREAD_CHECK
    rw [h1]
    simp [set_data]

theorem FREAD_CHECK_items_short (size nmemb : Nat) (state : trace_read_state)
    (h : state.file.data.length < size * nmemb) :
    ∃ st, FREAD_CHECK size nmemb state = (none, st) := by
  have hs : 0 < size := by
    rcases Nat.eq_zero_or_pos size with h0 | h0
    · rw [h0] at h; simp at h
    · exact h0
  have hn : 0 < nmemb := by
    rcases Nat.eq_zero_or_pos nmemb with h0 | h0
    · rw [h0] at h; simp at h
    · exact h0
  have h1 : (fread size nmemb state.file).2.1 = state.file.data.length / size := by
    unfold fread
    rw [if_neg (by omega), if_neg (by omega)]
  have h2 : state.file.data.length / size < nmemb := by
    rw [Nat.div_lt_iff_lt_mul hs, Nat.mul_comm]
    exact h
  unfold FREAD_CHECK
  rw [if_pos (by rw [h1]; omega)]
  exact ⟨_, rfl⟩

theorem splitOn_names (names : List (List Byte)) (tail : List Byte)
    (hn : ∀ name ∈ names, (0 : Byte) ∉ name) (ht : (0 : Byte) ∉ tail) :
    ((names.map (fun name => name ++ [0])).flatten ++ tail).splitOn 0 = names ++ [tail] := by
  induction names with
  | nil =>
    simp only [List.map_nil, List.flatten_nil, List.nil_append]
    apply List.splitOnP_eq_single
    intro x hx h
    rw [beq_iff_eq] at h
    exact ht (h ▸ hx)
  | cons name names ih =>
    have h1 : ∀ x ∈ name, ¬ ((x == (0 : Byte)) = true) := by
      intro x hx h
      rw [beq_iff_eq] at h
      exact hn name (List.mem_cons_self name names) (h ▸ hx)
    have h2 := ih (fun x hx => hn x (List.mem_cons_of_mem name hx))
    simp only [List.map_cons, List.flatten_cons, List.append_assoc, List.singleton_append,
      List.cons_append]
    unfold List.splitOn at h2 ⊢
    rw [List.splitOnP_first _ name h1 0 (by simp), List.nil_append, h2]

theorem to_signed_small (n : Nat) (h : n < 2 ^ 31) : to_signed 32 n = (n : Int) := by
  unfold to_signed
  have h1 : n % 2 ^ 32 = n := Nat.mod_eq_of_lt (by omega)
  rw [h1, if_pos (by simpa using h)]

theorem to_signed_top_bit (n : Nat) (hlo : 2 ^ 31 ≤ n) (hhi : n < 2 ^ 32) :
    to_signed 32 n < 0 := by
  unfold to_signed
  have h1 : n % 2 ^ 32 = n := Nat.mod_eq_of_lt hhi
  rw [h1, if_neg (by simpa using hlo)]
  push_cast
  omega

theorem validate_types_iff (n : Nat) (ts : List type_description) :
    validate_types n ts = true ↔
      ∀ t ∈ ts, to_signed 32 t.format < ((INVALID_FORMAT : Nat) : Int) ∧ t.name_index < n := by
  induction ts with
  | nil => simp [validate_types]
  | cons t ts ih =>
    rw [validate_types]
    by_cases h : to_signed 32 t.format ≥ ((INVALID_FORMAT : Nat) : Int) ∨ t.name_index ≥ n
    · rw [if_pos h]
      constructor
      · intro hf; exact absurd hf (by decide)
      · intro hall
        have := hall t (List.mem_cons_self t ts)
        omega
    · rw [if_neg h, ih]
      constructor
      · intro hall x hx
        rcases List.mem_cons.mp hx with h1 | h1
        · rw [h1]; omega
        · exact hall x h1
      · intro hall x hx
        exact hall x (List.mem_cons_of_mem t hx)

theorem start_reading_complete (alloc : Nat → Bool) (ssz tsz : Nat)
    (decode : List Byte → type_description) (f : FILE)
    (blob : List Byte) (n_types : Nat) (type_bytes body : List Byte)
    (halloc : ∀ n, alloc n = true)
    (htsz : 0 < tsz) (hblob : blob.length < 2 ^ 32) (hnt : n_types < 2 ^ 32)
    (htb : type_bytes.length = tsz * n_types)
    (hd : f.data = encode_header blob n_types type_bytes ++ body) :
    ∃ names tail, names.length = blob.count 0 ∧
      blob = (names.map (fun name => name ++ [0])).flatten ++ tail ∧
      (∀ name ∈ names, (0 : Byte) ∉ name) ∧ (0 : Byte) ∉ tail ∧
      start_reading alloc ssz tsz decode (some f) =
        if validate_types (blob.count 0) (decode_types tsz decode n_types type_bytes) = true then
          start_result.session
            { file := { f with data := body }, names := names,
              types := decode_types tsz decode n_types type_bytes,
              size_buffer := [], var_buffer := [], aux_buffer := [], error_code := TRACE_OK }
        else start_result.null := by
  obtain ⟨names, tail, hscan, hlen, hsplit, hnames, htail⟩ :=
    scan_names_of_le (blob.count 0) blob (le_refl _)
  have htail' : (0 : Byte) ∉ tail := by
    apply List.count_eq_zero.mp
    rw [htail]; omega
  refine ⟨names, tail, hlen, hsplit, hnames, htail', ?_⟩
  have e1 : le_value (le_bytes 8 blob.length) = blob.length :=
    le_value_le_bytes_of_lt 8 _ (by norm_num at hblob ⊢; omega)
  have e2 : le_value (le_bytes 4 n_types) = n_types :=
    le_value_le_bytes_of_lt 4 _ (by norm_num at hnt ⊢; omega)
  have hd1 : f.data =
      le_bytes 8 blob.length ++ (blob ++ (le_bytes 4 n_types ++ (type_bytes ++ body))) := by
    rw [hd, encode_header]; simp only [List.append_assoc]
  unfold start_reading
  simp only [halloc, Bool.true_eq_false, if_false, false_and]
  rw [FREAD_CHECK_append 8 (by decide) _ (le_bytes 8 blob.length) _ (length_le_bytes _ _) hd1]
  simp only [e1]
  rw [fread_bytes blob.length _ blob (le_bytes 4 n_types ++ (type_bytes ++ body)) rfl rfl]
  simp only [ne_eq, not_true_eq_false, if_false]
  rw [count_strings_loop_blob blob hblob]
  simp only [hscan]
  rw [FREAD_CHECK_append 4 (by decide) _ (le_bytes 4 n_types) (type_bytes ++ body)
    (length_le_bytes _ _) rfl]
  simp only [e2]
  rw [FREAD_CHECK_items tsz n_types htsz _ type_bytes body htb rfl]
  simp only [trace_read_state.n_names, hlen, set_data]

theorem start_reading_session (alloc : Nat → Bool) (ssz tsz : Nat)
    (decode : List Byte → type_description)
    (file : Option FILE) (state : trace_read_state)
    (h : start_reading alloc ssz tsz decode file = start_result.session state) :
    validate_types state.n_names state.types = true ∧ state.error_code = TRACE_OK := by
  unfold start_reading at h
  split at h
  · cases h
  · split at h
    · cases h
    · simp only at h
      split at h
      · cases h
      · split at h
        · cases h
        · split at h
          · cases h
          · split at h
            · cases h
            · split at h
              · cases h
              · split at h
                · cases h
                · split at h
                  · cases h
                  · split at h
                    · cases h
                    · split at h
                      · cases h
                      · split at h
                        · next hv =>
                          injection h with h
                          subst h
                          exact ⟨hv, rfl⟩
                        · cases h

theorem start_reading_huge_blob (alloc : Nat → Bool) (ssz tsz : Nat)
    (decode : List Byte → type_description) (f : FILE)
    (blob rest : List Byte) (halloc : ∀ n, alloc n = true)
    (hlo : 2 ^ 32 ≤ blob.length) (hhi : blob.length < 2 ^ 64)
    (hd : f.data = le_bytes 8 blob.length ++ (blob ++ rest)) :
    start_reading alloc ssz tsz decode (some f) = start_result.no_return := by
  have e1 : le_value (le_bytes 8 blob.length) = blob.length :=
    le_value_le_bytes_of_lt 8 _ (by norm_num at hhi ⊢; omega)
  unfold start_reading
  simp only [halloc, Bool.true_eq_false, if_false, false_and]
  rw [FREAD_CHECK_append 8 (by decide) _ (le_bytes 8 blob.length) _ (length_le_bytes _ _) hd]
  simp only [e1]
  rw [fread_bytes blob.length _ blob rest rfl rfl]
  simp only [ne_eq, not_true_eq_false, if_false]
  rw [count_strings_loop_no_exit blob blob.length hlo _ 0 0 (by norm_num)]

/-- On a complete header whose name blob is shorter than 2^32 bytes and whose
descriptors all pass the validation loop, with every allocation granted,
`start_reading` returns a session whose names are the NUL-delimited
substrings of the blob in order. -/
theorem start_reading_names_split (alloc : Nat → Bool) (ssz tsz : Nat)
    (decode : List Byte → type_description) (f : FILE)
    (blob : List Byte) (n_types : Nat) (type_bytes body : List Byte)
    (halloc : ∀ n, alloc n = true) (htsz : 0 < tsz) (hblob : blob.length < 2 ^ 32) (hnt : n_types < 2 ^ 32)
    (htb : type_bytes.length = tsz * n_types)
    (hvalid : ∀ t ∈ decode_types tsz decode n_types type_bytes,
      to_signed 32 t.format < ((INVALID_FORMAT : Nat) : Int) ∧ t.name_index < blob.count 0)
    (hd : f.data = encode_header blob n_types type_bytes ++ body) :
    ∃ state tail, start_reading alloc ssz tsz decode (some f) = start_result.session state ∧
      state.n_names = blob.count 0 ∧
      blob.splitOn 0 = state.names ++ [tail] ∧
      blob = (state.names.map (fun name => name ++ [0])).flatten ++ tail ∧
      (∀ name ∈ state.names, (0 : Byte) ∉ name) ∧ (0 : Byte) ∉ tail := by
  obtain ⟨names, tail, hlen, hsplit, hnames, htail, hstart⟩ :=
    start_reading_complete alloc ssz tsz decode f blob n_types type_bytes body halloc htsz hblob hnt htb hd
  rw [if_pos ((validate_types_iff _ _).mpr hvalid)] at hstart
  refine ⟨_, tail, hstart, hlen, ?_, hsplit, hnames, htail⟩
  conv_lhs => rw [hsplit]
  exact splitOn_names names tail hnames htail

/-- On a complete header whose name blob is shorter than 2^32 bytes, with
every allocation granted, `start_reading` returns `NULL` when a descriptor
fails the validation loop and a session with error code OK when all pass. -/
theorem start_reading_checks_types (alloc : Nat → Bool) (ssz tsz : Nat)
    (decode : List Byte → type_description) (f : FILE) (blob : List Byte) (n_types : Nat) (type_bytes body : List Byte)
    (halloc : ∀ n, alloc n = true) (htsz : 0 < tsz) (hblob : blob.length < 2 ^ 32) (hnt : n_types < 2 ^ 32)
    (htb : type_bytes.length = tsz * n_types)
    (hd : f.data = encode_header blob n_types type_bytes ++ body) :
    ((∃ t ∈ decode_types tsz decode n_types type_bytes,
        ((INVALID_FORMAT : Nat) : Int) ≤ to_signed 32 t.format ∨ blob.count 0 ≤ t.name_index) →
      start_reading alloc ssz tsz decode (some f) = start_result.null) ∧
    ((∀ t ∈ decode_types tsz decode n_types type_bytes,
        to_signed 32 t.format < ((INVALID_FORMAT : Nat) : Int) ∧ t.name_index < blob.count 0) →
      ∃ state, start_reading alloc ssz tsz decode (some f) = start_result.session state ∧
        state.n_names = blob.count 0 ∧
        state.types = decode_types tsz decode n_types type_bytes ∧
        state.error_code = TRACE_OK) := by
  obtain ⟨names, tail, hlen, _, _, _, hstart⟩ :=
    start_reading_complete alloc ssz tsz decode f blob n_types type_bytes body halloc htsz hblob hnt htb hd
  constructor
  · rintro ⟨t, ht, hbad⟩
    have hnv : ¬ validate_types (blob.count 0)
        (decode_types tsz decode n_types type_bytes) = true := by
      intro hv
      have := (validate_types_iff _ _).mp hv t ht
      omega
    rw [if_neg hnv] at hstart
    exact hstart
  · intro hvalid
    rw [if_pos ((validate_types_iff _ _).mpr hvalid)] at hstart
    exact ⟨_, hstart, hlen, rfl, rfl⟩

/-- On a header cut short, with every allocation granted and the cut not
behind a name blob of 2^32 bytes or more, `start_reading` returns `NULL`. -/
theorem start_reading_truncated_null (alloc : Nat → Bool) (ssz tsz : Nat)
    (decode : List Byte → type_description) (f : FILE) (blob : List Byte) (n_types : Nat) (type_bytes : List Byte) (k : Nat)
    (halloc : ∀ n, alloc n = true) (hblob : blob.length < 2 ^ 64) (hnt : n_types < 2 ^ 32)
    (htb : type_bytes.length = tsz * n_types)
    (hfin : blob.length < 2 ^ 32 ∨ k < 8 + blob.length)
    (hk : k < (encode_header blob n_types type_bytes).length)
    (hd : f.data = (encode_header blob n_types type_bytes).take k) :
    start_reading alloc ssz tsz decode (some f) = start_result.null := by
  have e1 : le_value (le_bytes 8 blob.length) = blob.length :=
    le_value_le_bytes_of_lt 8 _ (by norm_num at hblob ⊢; omega)
  have e2 : le_value (le_bytes 4 n_types) = n_types :=
    le_value_le_bytes_of_lt 4 _ (by norm_num at hnt ⊢; omega)
  simp only [encode_header, List.length_append, length_le_bytes] at hk
  unfold encode_header at hd
  unfold start_reading
  simp only [halloc, Bool.true_eq_false, if_false, false_and]
  rcases take_append_cases (le_bytes 8 blob.length)
      (blob ++ (le_bytes 4 n_types ++ type_bytes)) k with ⟨hlt, ht⟩ | ⟨hge, ht⟩
  · rw [length_le_bytes] at hlt
    obtain ⟨st, h1, _⟩ := FREAD_CHECK_short_code 8
      { file := f, names := [], types := [], size_buffer := [], var_buffer := [],
        aux_buffer := [], error_code := TRACE_OK }
      (by simp only [hd, ht]; exact length_take_lt _ _ _ hlt)
    rw [h1]
  · rw [length_le_bytes] at hge
    rw [ht, length_le_bytes] at hd
    rw [FREAD_CHECK_append 8 (by decide) _ (le_bytes 8 blob.length) _ (length_le_bytes _ _) hd]
    simp only [e1]
    rcases take_append_cases blob (le_bytes 4 n_types ++ type_bytes) (k - 8) with
      ⟨hlt2, ht2⟩ | ⟨hge2, ht2⟩
    · rw [if_pos]
      apply fread_bytes_short
      rw [set_data_data, ht2]
      exact length_take_lt _ _ _ hlt2
    · have hb32 : blob.length < 2 ^ 32 := by omega
      obtain ⟨names, tail, hscan, hlen, _, _, _⟩ :=
        scan_names_of_le (blob.count 0) blob (le_refl _)
      rw [fread_bytes blob.length _ blob _ rfl (by rw [set_data_data, ht2])]
      simp only [ne_eq, not_true_eq_false, if_false]
      rw [count_strings_loop_blob blob hb32]
      simp only [hscan]
      rcases take_append_cases (le_bytes 4 n_types) type_bytes (k - 8 - blob.length) with
        ⟨hlt3, ht3⟩ | ⟨hge3, ht3⟩
      · rw [length_le_bytes] at hlt3
        obtain ⟨st, h1, _⟩ := FREAD_CHECK_short_code 4
          { file := { data := (le_bytes 4 n_types ++ type_bytes).take (k - 8 - blob.length),
                      eof := f.eof },
            names := names, types := [], size_buffer := [], var_buffer := [],
            aux_buffer := [], error_code := TRACE_OK }
          (by simp only [ht3]; exact length_take_lt _ _ _ hlt3)
        simp only [set_data]
        rw [h1]
      · rw [length_le_bytes] at hge3
        simp only [set_data]
        rw [ht3, length_le_bytes]
        rw [FREAD_CHECK_append 4 (by decide) _ (le_bytes 4 n_types) _ (length_le_bytes _ _) rfl]
        simp only [e2]
        obtain ⟨st, h1⟩ := FREAD_CHECK_items_short tsz n_types
          (set_data
            { file := { data := le_bytes 4 n_types ++
                          type_bytes.take (k - 8 - blob.length - 4), eof := f.eof },
              names := names, types := [], size_buffer := [], var_buffer := [],
              aux_buffer := [], error_code := TRACE_OK }
            (type_bytes.take (k - 8 - blob.length - 4)))
          (by rw [set_data_data, ← htb]; exact length_take_lt _ _ _ (by omega))
        rw [h1]

/-! ## What the read operations leave unchanged -/

theorem Advances.refl (state : trace_read_state) : Advances state state :=
  ⟨rfl, rfl, ⟨le_refl _, le_refl _, le_refl _⟩, le_refl _, fun h => h⟩

theorem Advances.trans {s1 s2 s3 : trace_read_state} (h12 : Advances s1 s2)
    (h23 : Advances s2 s3) : Advances s1 s3 :=
  ⟨h23.names_eq.trans h12.names_eq, h23.types_eq.trans h12.types_eq,
    ⟨le_trans h12.capacity.1 h23.capacity.1, le_trans h12.capacity.2.1 h23.capacity.2.1,
      le_trans h12.capacity.2.2 h23.capacity.2.2⟩,
    le_trans h23.data_le h12.data_le, fun h => h23.latched (h12.latched h)⟩

theorem length_fread_le (size nmemb : Nat) (f : FILE) :
    (fread size nmemb f).2.2.data.length ≤ f.data.length := by
  unfold fread
  split
  · exact le_refl _
  · split
    · simp only [List.length_drop]; omega
    · simp

theorem advances_FREAD_CHECK (size nmemb : Nat) (state : trace_read_state) :
    Advances state (FREAD_CHECK size nmemb state).2 := by
  unfold FREAD_CHECK
  split
  · refine ⟨rfl, rfl, ⟨le_refl _, le_refl _, le_refl _⟩, length_fread_le _ _ _, ?_⟩
    intro _
    simp only
    split <;> decide
  · exact ⟨rfl, rfl, ⟨le_refl _, le_refl _, le_refl _⟩, length_fread_le _ _ _, fun h => h⟩

theorem advances_read_tag (state : trace_read_state) : Advances state (read_tag state).2 := by
  have hlen : (fgetc state.file).2.data.length ≤ state.file.data.length := by
    unfold fgetc
    split
    · simp_all
    · simp_all
  unfold read_tag
  simp only
  split
  · exact ⟨rfl, rfl, ⟨le_refl _, le_refl _, le_refl _⟩, hlen, fun _ => by simp⟩
  · split
    · exact ⟨rfl, rfl, ⟨le_refl _, le_refl _, le_refl _⟩, hlen, fun _ => by simp⟩
    · exact ⟨rfl, rfl, ⟨le_refl _, le_refl _, le_refl _⟩, hlen, fun h => h⟩

theorem read_tag_consumes (state : trace_read_state)
    (h : (read_tag state).2.error_code = TRACE_OK) :
    (read_tag state).2.file.data.length < state.file.data.length := by
  cases hd : state.file.data with
  | nil =>
    rw [read_tag_nil state hd] at h
    simp at h
  | cons b rest =>
    have hf : (fgetc state.file).2.data = rest := by
      unfold fgetc
      rw [hd]
    have hfile : (read_tag state).2.file = (fgetc state.file).2 := by
      unfold read_tag
      simp only
      split
      · rfl
      · split <;> rfl
    rw [hfile, hf]
    simp

theorem advances_read_id (state : trace_read_state) : Advances state (read_id state).2 := by
  have h := advances_FREAD_CHECK 8 1 state
  unfold read_id
  split
  · next id st heq => rw [heq] at h; exact h
  · next st heq => rw [heq] at h; exact h

theorem advances_read_buffer_size (sz : Nat) (state : trace_read_state) :
    Advances state (read_buffer_size sz state).2 := by
  have h := advances_FREAD_CHECK sz 1 state
  unfold read_buffer_size
  split
  · next st heq => rw [heq] at h; exact h
  · next r st heq => rw [heq] at h; exact h

theorem advances_read_signed (w : Nat) (result : trace_var_info) (state : trace_read_state) :
    Advances state (read_signed w result state).2 := by
  have h := advances_FREAD_CHECK result.size 1 state
  unfold read_signed
  split
  · next st heq => rw [heq] at h; exact h
  · next r st heq => rw [heq] at h; exact h

theorem advances_read_blob (size : Nat) (result : trace_var_info) (state : trace_read_state) :
    Advances state (read_blob size result state).2 := by
  have h := advances_FREAD_CHECK size 1 state
  unfold read_blob
  split
  · next st heq => rw [heq] at h; exact h
  · next r st heq => rw [heq] at h; exact h

theorem advances_read_var_value (type : type_description) (result : trace_var_info)
    (state : trace_read_state) : Advances state (read_var_value type result state).2 := by
  unfold read_var_value
  split
  · split
    · exact advances_read_signed _ _ _
    · split
      · exact advances_read_signed _ _ _
      · split
        · exact advances_read_signed _ _ _
        · split
          · exact advances_read_signed _ _ _
          · exact Advances.refl _
  · split
    · have h := advances_FREAD_CHECK result.size 1 state
      split
      · next st heq => rw [heq] at h; exact h
      · next r st heq => rw [heq] at h; exact h
    · split
      · split
        · have h := advances_FREAD_CHECK 4 1 state
          split
          · next st heq => rw [heq] at h; exact h
          · next r st heq =>
            rw [heq] at h
            exact h.trans (advances_read_blob _ _ _)
        · exact advances_read_blob _ _ _
      · exact Advances.refl _

theorem advances_read_var_info (state : trace_read_state) :
    Advances state (read_var_info state).2 := by
  have h1 := advances_FREAD_CHECK 4 1 state
  unfold read_var_info
  simp only
  split
  · next st heq => rw [heq] at h1; exact h1
  · next nb st heq =>
    rw [heq] at h1
    have h2 := advances_FREAD_CHECK 4 1 st
    split
    · next st2 heq2 => rw [heq2] at h2; exact h1.trans h2
    · next tb st2 heq2 =>
      rw [heq2] at h2
      split
      · exact (h1.trans h2).trans
          ⟨rfl, rfl, ⟨le_refl _, le_refl _, le_refl _⟩, le_refl _, fun _ => by simp⟩
      · exact (h1.trans h2).trans (advances_read_var_value _ _ _)

/-! ## Every call of `read_trace_point` returns -/

theorem within_capacity_of_advances {tp : trace_point} {s s' : trace_read_state}
    (h : within_capacity tp s) (ha : Advances s s') : within_capacity tp s' :=
  ⟨le_trans h.1 ha.capacity.1, le_trans h.2.1 ha.capacity.2.1, le_trans h.2.2 ha.capacity.2.2⟩

theorem Returns.of_advances {s1 s2 s' : trace_read_state} {r1 r2 rp tp : trace_point}
    {code : trace_error} (h : Returns s2 r2 rp code s' tp) (h12 : Advances s1 s2)
    (hw : within_capacity r1 s1 → within_capacity r2 s2) : Returns s1 r1 rp code s' tp := by
  refine ⟨h.code_eq, h12.trans h.advances, ?_, h.unchanged⟩
  rcases h.stored with h1 | ⟨h1, h2, h3, h4, h5⟩
  · exact Or.inl h1
  · exact Or.inr ⟨h1, h2, h3, h4, fun h6 => h5 (hw h6)⟩

theorem Returns.unchanged_at (s s' : trace_read_state) (result rp : trace_point)
    (h : Advances s s') : Returns s result rp s'.error_code s' rp :=
  ⟨rfl, h, Or.inl rfl, fun _ => rfl⟩

theorem loop_returns (sz : Nat) (rp : trace_point) :
    ∀ (fuel : Nat) (state : trace_read_state) (result : trace_point),
      state.file.data.length < fuel →
      ∃ code state' tp,
        read_trace_point_loop sz fuel state result rp = some (code, state', tp) ∧
          Returns state result rp code state' tp := by
  intro fuel
  induction fuel with
  | zero => intro state result h; omega
  | succ f ih =>
    intro state result hlen
    have h1 := advances_read_tag state
    have h2 := read_tag_consumes state
    rw [read_trace_point_loop]
    simp only
    generalize read_tag state = rt at h1 h2 ⊢
    obtain ⟨tag, s1⟩ := rt
    simp only at h1 h2 ⊢
    by_cases he : s1.error_code = TRACE_OK
    · have hlt := h2 he
      rw [if_neg (not_not.mpr he)]
      by_cases ht0 : tag = END_ENTRY
      · rw [if_pos ht0]
        exact ⟨_, _, _, rfl, rfl, h1,
          Or.inr ⟨he, rfl, rfl, rfl, fun hcap => within_capacity_of_advances hcap h1⟩,
          fun h => absurd he h⟩
      rw [if_neg ht0]
      by_cases ht1 : tag = STATEMENT_ID
      · rw [if_pos ht1]
        have h3 := advances_read_id s1
        by_cases he2 : (read_id s1).2.error_code = TRACE_OK
        · rw [if_neg (not_not.mpr he2)]
          obtain ⟨code, s', tp, heq, hret⟩ := ih (read_id s1).2
            { result with statement := (read_id s1).1 } (by have := h3.data_le; omega)
          exact ⟨code, s', tp, heq, hret.of_advances (h1.trans h3)
            (fun hcap => within_capacity_of_advances hcap (h1.trans h3))⟩
        · rw [if_pos he2]
          exact ⟨_, _, _, rfl, Returns.unchanged_at _ _ result rp (h1.trans h3)⟩
      rw [if_neg ht1]
      by_cases ht2 : tag = VARIABLE
      · rw [if_pos ht2]
        have h3 := advances_read_var_info s1
        by_cases he2 : (read_var_info s1).2.error_code = TRACE_OK
        · rw [if_neg (not_not.mpr he2)]
          have hp := length_push (read_var_info s1).2.var_buffer result.n_vars
            (read_var_info s1).1
          unfold push at hp
          have h4 : Advances (read_var_info s1).2
              { (read_var_info s1).2 with
                var_buffer :=
                  (ENSURE_BUFFER_SIZE (read_var_info s1).2.var_buffer (result.n_vars + 1)).set
                    (result.n_vars + 1 - 1) (some (read_var_info s1).1) } := by
            refine ⟨rfl, rfl, ⟨?_, le_refl _, le_refl _⟩, le_refl _, fun h => h⟩
            simp only [trace_read_state.n_vars, Nat.add_sub_cancel]
            exact hp.2
          obtain ⟨code, s', tp, heq, hret⟩ := ih
            { (read_var_info s1).2 with
                var_buffer :=
                  (ENSURE_BUFFER_SIZE (read_var_info s1).2.var_buffer (result.n_vars + 1)).set
                    (result.n_vars + 1 - 1) (some (read_var_info s1).1) }
            { result with n_vars := result.n_vars + 1 }
            (by have := h3.data_le; simp only; omega)
          refine ⟨code, s', tp, heq, hret.of_advances ((h1.trans h3).trans h4) ?_⟩
          intro hcap
          have hcap2 := within_capacity_of_advances hcap (h1.trans h3)
          exact ⟨by simp only [trace_read_state.n_vars, Nat.add_sub_cancel]; exact hp.1,
            hcap2.2.1, hcap2.2.2⟩
        · rw [if_pos he2]
          exact ⟨_, _, _, rfl, Returns.unchanged_at _ _ result rp (h1.trans h3)⟩
      rw [if_neg ht2]
      by_cases ht3 : tag = BUFFER_SIZE
      · rw [if_pos ht3]
        have h3 := advances_read_buffer_size sz s1
        by_cases he2 : (read_buffer_size sz s1).2.error_code = TRACE_OK
        · rw [if_neg (not_not.mpr he2)]
          have hp := length_push (read_buffer_size sz s1).2.size_buffer result.n_sizes
            (read_buffer_size sz s1).1
          unfold push at hp
          have h4 : Advances (read_buffer_size sz s1).2
              { (read_buffer_size sz s1).2 with
                size_buffer :=
                  (ENSURE_BUFFER_SIZE (read_buffer_size sz s1).2.size_buffer
                    (result.n_sizes + 1)).set
                    (result.n_sizes + 1 - 1) (some (read_buffer_size sz s1).1) } := by
            refine ⟨rfl, rfl, ⟨le_refl _, ?_, le_refl _⟩, le_refl _, fun h => h⟩
            simp only [trace_read_state.n_sizes, Nat.add_sub_cancel]
            exact hp.2
          obtain ⟨code, s', tp, heq, hret⟩ := ih
            { (read_buffer_size sz s1).2 with
                size_buffer :=
                  (ENSURE_BUFFER_SIZE (read_buffer_size sz s1).2.size_buffer
                    (result.n_sizes + 1)).set
                    (result.n_sizes + 1 - 1) (some (read_buffer_size sz s1).1) }
            { result with n_sizes := result.n_sizes + 1 }
            (by have := h3.data_le; simp only; omega)
          refine ⟨code, s', tp, heq, hret.of_advances ((h1.trans h3).trans h4) ?_⟩
          intro hcap
          have hcap2 := within_capacity_of_advances hcap (h1.trans h3)
          exact ⟨hcap2.1,
            by simp only [trace_read_state.n_sizes, Nat.add_sub_cancel]; exact hp.1, hcap2.2.2⟩
        · rw [if_pos he2]
          exact ⟨_, _, _, rfl, Returns.unchanged_at _ _ result rp (h1.trans h3)⟩
      rw [if_neg ht3]
      by_cases ht4 : tag = AUXILIARY
      · rw [if_pos ht4]
        have h3 := advances_FREAD_CHECK 8 1 s1
        generalize FREAD_CHECK 8 1 s1 = r at h3 ⊢
        obtain ⟨o, s2⟩ := r
        simp only at h3
        cases o with
        | none =>
          simp only
          exact ⟨_, _, _, rfl, Returns.unchanged_at _ _ result rp (h1.trans h3)⟩
        | some value =>
          simp only
          have hp := length_push s2.aux_buffer result.n_aux (le_value value)
          unfold push at hp
          have h4 : Advances s2
              { s2 with
                aux_buffer :=
                  (ENSURE_BUFFER_SIZE s2.aux_buffer (result.n_aux + 1)).set
                    (result.n_aux + 1 - 1) (some (le_value value)) } := by
            refine ⟨rfl, rfl, ⟨le_refl _, le_refl _, ?_⟩, le_refl _, fun h => h⟩
            simp only [trace_read_state.n_aux, Nat.add_sub_cancel]
            exact hp.2
          obtain ⟨code, s', tp, heq, hret⟩ := ih
            { s2 with
                aux_buffer :=
                  (ENSURE_BUFFER_SIZE s2.aux_buffer (result.n_aux + 1)).set
                    (result.n_aux + 1 - 1) (some (le_value value)) }
            { result with n_aux := result.n_aux + 1 }
            (by have := h3.data_le; simp only; omega)
          refine ⟨code, s', tp, heq, hret.of_advances ((h1.trans h3).trans h4) ?_⟩
          intro hcap
          have hcap2 := within_capacity_of_advances hcap (h1.trans h3)
          exact ⟨hcap2.1, hcap2.2.1,
            by simp only [trace_read_state.n_aux, Nat.add_sub_cancel]; exact hp.1⟩
      rw [if_neg ht4]
      exact ⟨_, _, _, rfl, Returns.unchanged_at _ _ result rp h1⟩
    · rw [if_pos he]
      exact ⟨_, _, _, rfl, Returns.unchanged_at _ _ result rp h1⟩

theorem read_trace_point_returns (sz : Nat) (state : trace_read_state) (rp : trace_point) :
    ∃ code state' tp, read_trace_point sz state rp = some (code, state', tp) ∧
      Returns state empty_point rp code state' tp :=
  loop_returns sz rp (state.file.data.length + 1) state empty_point (Nat.lt_succ_self _)

theorem loop_fuel_succ (sz : Nat) (rp : trace_point) :
    ∀ (fuel : Nat) (state : trace_read_state) (result : trace_point)
      (r : trace_error × trace_read_state × trace_point),
      read_trace_point_loop sz fuel state result rp = some r →
      read_trace_point_loop sz (fuel + 1) state result rp = some r := by
  intro fuel
  induction fuel with
  | zero =>
    intro state result r h
    rw [read_trace_point_loop] at h
    exact absurd h (by simp)
  | succ f ih =>
    intro state result r h
    rw [read_trace_point_loop] at h ⊢
    simp only at h ⊢
    split_ifs at h ⊢ with h1 h2 h3 h4 h5 h6 h7 h8 h9
    · exact h
    · exact h
    · exact h
    · exact ih _ _ _ h
    · exact h
    · exact ih _ _ _ h
    · exact h
    · exact ih _ _ _ h
    · generalize FREAD_CHECK 8 1 (read_tag state).2 = q at h ⊢
      obtain ⟨o, s2⟩ := q
      cases o with
      | none => exact h
      | some value => exact ih _ _ _ h
    · exact h

theorem loop_fuel_add (sz : Nat) (rp : trace_point) (fuel extra : Nat)
    (state : trace_read_state) (result : trace_point)
    (r : trace_error × trace_read_state × trace_point)
    (h : read_trace_point_loop sz fuel state result rp = some r) :
    read_trace_point_loop sz (fuel + extra) state result rp = some r := by
  induction extra with
  | zero => exact h
  | succ e ih => exact loop_fuel_succ sz rp (fuel + e) state result r ih

/-! ## Sequences of calls -/

theorem after_calls_advances (sz : Nat) :
    ∀ (k : Nat) (state : trace_read_state) (rp : trace_point),
      ∃ s tp, after_calls sz k state rp = some (s, tp) ∧ Advances state s ∧
        (within_capacity rp state → within_capacity tp s) := by
  intro k
  induction k with
  | zero =>
    intro state rp
    exact ⟨state, rp, rfl, Advances.refl state, fun h => h⟩
  | succ k ih =>
    intro state rp
    obtain ⟨code, s', tp', heq, hret⟩ := read_trace_point_returns sz state rp
    obtain ⟨s, tp, hs, hadv, hcap⟩ := ih s' tp'
    refine ⟨s, tp, ?_, hret.advances.trans hadv, ?_⟩
    · rw [after_calls, heq]
      exact hs
    · intro hw
      apply hcap
      rcases hret.stored with h1 | ⟨_, _, _, _, h5⟩
      · rw [h1]; exact within_capacity_of_advances hw hret.advances
      · exact h5 ⟨Nat.zero_le _, Nat.zero_le _, Nat.zero_le _⟩

theorem after_calls_add (sz : Nat) (d : Nat) :
    ∀ (j : Nat) (state : trace_read_state) (rp : trace_point)
      (s : trace_read_state) (tp : trace_point),
      after_calls sz j state rp = some (s, tp) →
      after_calls sz (j + d) state rp = after_calls sz d s tp := by
  intro j
  induction j with
  | zero =>
    intro state rp s tp h
    rw [after_calls] at h
    rw [Nat.zero_add]
    injection h with h
    injection h with h1 h2
    rw [h1, h2]
  | succ j ih =>
    intro state rp s tp h
    rw [after_calls] at h
    rw [show j + 1 + d = (j + d) + 1 by omega, after_calls]
    obtain ⟨code, s', tp', heq, _⟩ := read_trace_point_returns sz state rp
    rw [heq] at h ⊢
    exact ih s' tp' s tp h

/-! ## The statement id of a trace point -/

theorem encode_entries_append (types : List type_description) (a b : List Entry) :
    encode_entries types (a ++ b) = encode_entries types a ++ encode_entries types b := by
  induction a with
  | nil => rfl
  | cons e a ih =>
    show encode_entry types e ++ encode_entries types (a ++ b) = _
    rw [ih, encode_entries, List.append_assoc]

theorem read_var_value_unrecognized (type : type_description) (result : trace_var_info)
    (state : trace_read_state) (h : INVALID_FORMAT ≤ type.format) :
    read_var_value type result state = (result, state) := by
  simp only [INVALID_FORMAT] at h
  unfold read_var_value
  simp only [SIGNED, UNSIGNED, FLOAT, POINTER, BLOB]
  rw [if_neg (by omega), if_neg (by omega), if_neg (by omega)]

theorem read_var_info_unrecognized (state : trace_read_state) (nb tb rest : List Byte)
    (hnb : nb.length = 4) (htb : tb.length = 4)
    (hni : le_value nb < state.n_names) (hti : le_value tb < state.n_types)
    (hf : INVALID_FORMAT ≤ (state.types.getD (le_value tb) default).format)
    (hd : state.file.data = nb ++ (tb ++ rest)) :
    (read_var_info state).2 = set_data state rest := by
  rw [read_var_info_indices state nb tb rest hnb htb hd hni hti,
    read_var_value_unrecognized _ _ _ hf]

theorem long_blob_length : long_blob.length = 2 ^ 32 := by
  unfold long_blob
  rw [List.length_append, List.length_replicate, List.length_singleton]
  norm_num

/-! ## Sessions and streams within the reader's limits -/

/-- Across any sequence of `read_trace_point` calls the capacities `n_vars`,
`n_sizes` and `n_aux` of the session never decrease (after `j + d` calls
they are at least what they were after `j` calls); if the counts in
`*result_ptr` lay within the capacities before the first call, they do after
every call; and every call either leaves `*result_ptr` as it was or returns
OK and stores a trace point whose arrays are the session's buffers and whose
counts lie within their capacities. -/
theorem capacities_never_shrink (sz : Nat) (j d : Nat) (state : trace_read_state)
    (rp : trace_point) :
    ∃ sj tpj sk tpk,
      after_calls sz j state rp = some (sj, tpj) ∧
      after_calls sz (j + d) state rp = some (sk, tpk) ∧
      capacity_le sj sk ∧
      (within_capacity rp state → within_capacity tpk sk) ∧
      ∃ code s' tp, read_trace_point sz sk tpk = some (code, s', tp) ∧
        capacity_le sk s' ∧
        (tp = tpk ∨
          (code = TRACE_OK ∧ within_capacity tp s' ∧ tp.vars = s'.var_buffer ∧
            tp.sizes = s'.size_buffer ∧ tp.aux = s'.aux_buffer)) := by
  obtain ⟨sj, tpj, hj, _, _⟩ := after_calls_advances sz j state rp
  obtain ⟨sk, tpk, hk, hadv, _⟩ := after_calls_advances sz d sj tpj
  obtain ⟨sk', tpk', hk', _, hcap'⟩ := after_calls_advances sz (j + d) state rp
  have hadd := after_calls_add sz d j state rp sj tpj hj
  rw [hk, hk'] at hadd
  injection hadd with hadd
  injection hadd with h1 h2
  subst h1 h2
  obtain ⟨code, s', tp, heq, hret⟩ := read_trace_point_returns sz sk' tpk'
  refine ⟨sj, tpj, sk', tpk', hj, hk', hadv.capacity, hcap', code, s', tp, heq,
    hret.advances.capacity, ?_⟩
  rcases hret.stored with h1 | ⟨h1, h2, h3, h4, h5⟩
  · exact Or.inl h1
  · exact Or.inr ⟨h1, h5 ⟨Nat.zero_le _, Nat.zero_le _, Nat.zero_le _⟩, h2, h3, h4⟩

/-- Every session returned by `start_reading` passed the validation loop:
each descriptor's format, compared as a signed 32-bit integer, is below
`INVALID_FORMAT` and its name index is below `n_names`.  No read operation
changes `names` or `types`, so this holds after any number of calls.
Whenever `read_var_info`, on a session with these dictionaries, has read its
two index fields, either an index is out of range and it stops with ERROR
before the lookup, or the type index is below `n_types` and the descriptor
looked up passed the validation loop; if moreover its format pattern has the
top bit clear, it is one of SIGNED, UNSIGNED, FLOAT, POINTER, BLOB. -/
theorem types_stay_checked (alloc : Nat → Bool) (ssz tsz : Nat)
    (decode : List Byte → type_description) (file : Option FILE) (state0 : trace_read_state)
    (h : start_reading alloc ssz tsz decode file = start_result.session state0) :
    types_checked state0 ∧
    (∀ (s : trace_read_state) (sz : Nat),
      ((read_tag s).2.names = s.names ∧ (read_tag s).2.types = s.types) ∧
      ((read_id s).2.names = s.names ∧ (read_id s).2.types = s.types) ∧
      ((read_var_info s).2.names = s.names ∧ (read_var_info s).2.types = s.types) ∧
      ((read_buffer_size sz s).2.names = s.names ∧ (read_buffer_size sz s).2.types = s.types)) ∧
    (∀ (sz : Nat) (s : trace_read_state) (rp : trace_point),
      ∃ code s' tp, read_trace_point sz s rp = some (code, s', tp) ∧
        s'.names = s.names ∧ s'.types = s.types) ∧
    (∀ (sz k : Nat) (rp : trace_point),
      ∃ s tp, after_calls sz k state0 rp = some (s, tp) ∧
        s.names = state0.names ∧ s.types = state0.types ∧ types_checked s) ∧
    (∀ (s : trace_read_state), s.names = state0.names → s.types = state0.types →
      ∀ (nb tb rest : List Byte), nb.length = 4 → tb.length = 4 →
        s.file.data = nb ++ (tb ++ rest) →
        ((s.n_names ≤ le_value nb ∨ s.n_types ≤ le_value tb) ∧
          (read_var_info s).2 = { set_data s rest with error_code := TRACE_ERROR }) ∨
        (le_value nb < s.n_names ∧ le_value tb < s.n_types ∧
          to_signed 32 (s.types.getD (le_value tb) default).format <
            ((INVALID_FORMAT : Nat) : Int) ∧
          (s.types.getD (le_value tb) default).name_index < s.n_names ∧
          ((s.types.getD (le_value tb) default).format < 2 ^ 31 →
            (s.types.getD (le_value tb) default).format = SIGNED ∨
            (s.types.getD (le_value tb) default).format = UNSIGNED ∨
            (s.types.getD (le_value tb) default).format = FLOAT ∨
            (s.types.getD (le_value tb) default).format = POINTER ∨
            (s.types.getD (le_value tb) default).format = BLOB) ∧
          read_var_info s =
            read_var_value (s.types.getD (le_value tb) default)
              { name_index := le_value nb, type_index := le_value tb,
                size := (s.types.getD (le_value tb) default).size, has_buffer_size := 0,
                value := trace_value.u 0 }
              (set_data s rest))) := by
  have hvalid : types_checked state0 :=
    (validate_types_iff _ _).mp (start_reading_session alloc ssz tsz decode file state0 h).1
  have hkeep : ∀ s : trace_read_state, s.names = state0.names → s.types = state0.types →
      types_checked s := by
    intro s hn ht t hm
    rw [ht] at hm
    have := hvalid t hm
    unfold trace_read_state.n_names at this ⊢
    rw [hn]
    exact this
  refine ⟨hvalid, ?_, ?_, ?_, ?_⟩
  · intro s sz
    exact ⟨⟨(advances_read_tag s).names_eq, (advances_read_tag s).types_eq⟩,
      ⟨(advances_read_id s).names_eq, (advances_read_id s).types_eq⟩,
      ⟨(advances_read_var_info s).names_eq, (advances_read_var_info s).types_eq⟩,
      ⟨(advances_read_buffer_size sz s).names_eq, (advances_read_buffer_size sz s).types_eq⟩⟩
  · intro sz s rp
    obtain ⟨code, s', tp, heq, hret⟩ := read_trace_point_returns sz s rp
    exact ⟨code, s', tp, heq, hret.advances.names_eq, hret.advances.types_eq⟩
  · intro sz k rp
    obtain ⟨s, tp, heq, hadv, _⟩ := after_calls_advances sz k state0 rp
    exact ⟨s, tp, heq, hadv.names_eq, hadv.types_eq, hkeep s hadv.names_eq hadv.types_eq⟩
  · intro s hn ht nb tb rest hnb htb hd
    by_cases hbad : s.n_names ≤ le_value nb ∨ s.n_types ≤ le_value tb
    · left
      refine ⟨hbad, ?_⟩
      rw [read_var_info_bad_index s nb tb rest hnb htb hd hbad]
    · right
      have hni : le_value nb < s.n_names := by omega
      have hti : le_value tb < s.n_types := by omega
      have hlt : le_value tb < s.types.length := hti
      have hmem : s.types.getD (le_value tb) default ∈ s.types := by
        rw [List.getD_eq_getElem?_getD, List.getElem?_eq_getElem hlt]
        exact List.getElem_mem hlt
      have hv := hkeep s hn ht _ hmem
      refine ⟨hni, hti, hv.1, hv.2, ?_, read_var_info_indices s nb tb rest hnb htb hd hni hti⟩
      intro hsmall
      have hf := hv.1
      rw [to_signed_small _ hsmall] at hf
      simp only [INVALID_FORMAT, SIGNED, UNSIGNED, FLOAT, POINTER, BLOB] at hf ⊢
      omega

/-- On a session whose error code is OK and whose unread input is the
concatenation of trace points `pts` whose entries all satisfy `entry_ok`,
the first `pts.length` calls of `read_trace_point` return OK, the trace point
of the k-th call shows the entries of the k-th point (counts equal to the
numbers of VARIABLE, BUFFER_SIZE and AUXILIARY entries, the counted cells
equal to the decoded payloads in stream order), and the call after the last
point returns EOF. -/
theorem read_calls_decode_trace (sz : Nat) (pts : List (List Entry))
    (state : trace_read_state) (rp : trace_point)
    (hok : state.error_code = TRACE_OK)
    (hwf : ∀ p ∈ pts, ∀ e ∈ p, entry_ok sz state e)
    (hd : state.file.data = encode_trace state.types pts) :
    ∃ tps last,
      read_calls sz (pts.length + 1) state rp =
        some (tps.map (fun tp => (TRACE_OK, tp)) ++ [(TRACE_EOF, last)]) ∧
      List.Forall₂ (point_matches state.types) tps pts := by
  induction pts generalizing state rp with
  | nil =>
    refine ⟨[], rp, ?_, List.Forall₂.nil⟩
    simp only [List.length_nil, Nat.zero_add, read_calls]
    rw [read_trace_point_nil sz state rp hd]
    rfl
  | cons p ps ih =>
    have hp : ∀ e ∈ p, entry_ok sz state e := hwf p (List.mem_cons_self p ps)
    obtain ⟨state', tp, hcall, hmatch, hfile, hnames, htypes, hok'⟩ :=
      read_trace_point_point sz state rp p (encode_trace state.types ps) hok hp hd
    have hwf' : ∀ q ∈ ps, ∀ e ∈ q, entry_ok sz state' e := by
      intro q hq e he
      exact entry_ok_congr sz state state' e hnames htypes
        (hwf q (List.mem_cons_of_mem p hq) e he)
    have hd' : state'.file.data = encode_trace state'.types ps := by
      rw [hfile, htypes]
    obtain ⟨tps, last, hcalls, hall⟩ := ih state' tp hok' hwf' hd'
    refine ⟨tp :: tps, last, ?_, List.Forall₂.cons hmatch ?_⟩
    · show read_calls sz ((ps.length + 1) + 1) state rp = _
      rw [read_calls, hcall]
      simp only [hcalls, Option.map_some', List.map_cons, List.cons_append]
    · rw [← htypes]; exact hall

/-- The specification's end-to-end example: on the session with the names
`x`, `y` and the one type `{SIGNED, size 4}`, the body
`STATEMENT_ID(42), VARIABLE(0, 0, -7), END_ENTRY` decodes to statement 42 and
one variable of value -7, and the next call returns EOF. -/
theorem read_calls_decode_trace_example :
    (∃ tps last,
      read_calls 16 2 (example_state example_body) empty_point =
        some (tps.map (fun tp => (TRACE_OK, tp)) ++ [(TRACE_EOF, last)]) ∧
      List.Forall₂ (point_matches (example_state example_body).types) tps
        [[Entry.statement 42, Entry.var 0 0 (trace_value.s (-7))]]) ∧
    read_calls 16 2 (example_state example_body) empty_point =
      some [(TRACE_OK, example_point), (TRACE_EOF, example_point)] :=
  ⟨read_calls_decode_trace 16 [[Entry.statement 42, Entry.var 0 0 (trace_value.s (-7))]]
      (example_state example_body) empty_point rfl (by decide) (by decide),
    by decide⟩

/-- The header with the name blob `x\0y\0` and one type: the names of the
session are the NUL-delimited substrings of the blob. -/
theorem start_reading_names_split_example :
    ∃ state tail,
      start_reading (fun _ => true) 64 12 example_decode
          (some (example_file (example_header ++ example_body)))
        = start_result.session state ∧
      state.n_names = example_blob.count 0 ∧
      example_blob.splitOn 0 = state.names ++ [tail] ∧
      example_blob = (state.names.map (fun name => name ++ [0])).flatten ++ tail ∧
      (∀ name ∈ state.names, (0 : Byte) ∉ name) ∧ (0 : Byte) ∉ tail :=
  start_reading_names_split (fun _ => true) 64 12 example_decode
    (example_file (example_header ++ example_body))
    example_blob 1 example_type_bytes example_body (fun _ => rfl) (by decide) (by decide)
    (by decide) (by decide) (by decide) (by decide)

/-- The example header, once with its descriptor's format replaced by
`INVALID_FORMAT` and once as it is. -/
theorem start_reading_checks_types_example :
    start_reading (fun _ => true) 64 12 example_decode
        (some (example_file (encode_header example_blob 1 [0, 0, 0, 0, 5, 0, 0, 0, 4, 0, 0, 0])))
        = start_result.null ∧
    ∃ state, start_reading (fun _ => true) 64 12 example_decode
          (some (example_file (example_header ++ [])))
        = start_result.session state ∧
      state.n_names = example_blob.count 0 ∧
      state.types = decode_types 12 example_decode 1 example_type_bytes ∧
      state.error_code = TRACE_OK :=
  ⟨(start_reading_checks_types (fun _ => true) 64 12 example_decode
      (example_file (encode_header example_blob 1 [0, 0, 0, 0, 5, 0, 0, 0, 4, 0, 0, 0]))
      example_blob 1 [0, 0, 0, 0, 5, 0, 0, 0, 4, 0, 0, 0] [] (fun _ => rfl) (by decide)
      (by decide) (by decide) (by decide) (by decide)).1
      ⟨_, List.mem_cons_self _ _, Or.inl (by decide)⟩,
   (start_reading_checks_types (fun _ => true) 64 12 example_decode
      (example_file (example_header ++ []))
      example_blob 1 example_type_bytes [] (fun _ => rfl) (by decide) (by decide) (by decide)
      (by decide) (by decide)).2 (by decide)⟩

/-- The example header cut inside its type table. -/
theorem start_reading_truncated_null_example :
    start_reading (fun _ => true) 64 12 example_decode
        (some (example_file (example_header.take 20)))
      = start_result.null :=
  start_reading_truncated_null (fun _ => true) 64 12 example_decode
    (example_file (example_header.take 20))
    example_blob 1 example_type_bytes 20 (fun _ => rfl) (by decide) (by decide) (by decide)
    (by decide) (by decide) (by decide)

/-! ## The properties of the reader -/

/-- C1: a session opened on a valid header does not decode every well-formed
body.  With the one type `{BLOB, size 0}` and the body
`VARIABLE(0, 0, empty blob), END_ENTRY` (length field 0, no payload bytes),
`start_reading` returns a session and the first call of `read_trace_point`
returns ERROR.  With the one type `{SIGNED, size 3}` and the body
`VARIABLE(0, 0, 0), END_ENTRY`, one trace point, `start_reading` returns a
session and five calls return OK, OK, OK, OK, EOF: the second call does not
return EOF. -/
theorem read_trace_point_complete_payload_not_decoded :
    start_reading (fun _ => true) 64 12 example_decode
        (some (example_file (encode_header example_blob 1 open_blob_type_bytes ++
          encode_trace [{ name_index := 0, format := BLOB, size := 0 }]
            [[Entry.var 0 0 (trace_value.ptr [])]])))
      = start_result.session
          (opened_state [{ name_index := 0, format := BLOB, size := 0 }]
            [2, 0, 0, 0, 0, 0, 0, 0, 0, 0, 0, 0, 0, 0]) ∧
    (read_trace_point 16
        (opened_state [{ name_index := 0, format := BLOB, size := 0 }]
          [2, 0, 0, 0, 0, 0, 0, 0, 0, 0, 0, 0, 0, 0]) empty_point).map (fun r => r.1)
      = some TRACE_ERROR ∧
    start_reading (fun _ => true) 64 12 example_decode
        (some (example_file (encode_header example_blob 1 signed3_type_bytes ++
          encode_trace [{ name_index := 0, format := SIGNED, size := 3 }]
            [[Entry.var 0 0 (trace_value.s 0)]])))
      = start_result.session
          (opened_state [{ name_index := 0, format := SIGNED, size := 3 }]
            [2, 0, 0, 0, 0, 0, 0, 0, 0, 0, 0, 0, 0]) ∧
    (read_calls 16 5
        (opened_state [{ name_index := 0, format := SIGNED, size := 3 }]
          [2, 0, 0, 0, 0, 0, 0, 0, 0, 0, 0, 0, 0]) empty_point).map
        (fun l => l.map (fun r => r.1))
      = some [TRACE_OK, TRACE_OK, TRACE_OK, TRACE_OK, TRACE_EOF] := by
  refine ⟨by decide, by decide, by decide, by decide⟩

/-- C2: for every width `w` in 1, 2, 4, 8 and every integer `v` in the
signed range of that width, `read_var_info` on a SIGNED descriptor of size
`w`, fed the two index fields and the `w`-byte two's-complement encoding of
`v`, yields `value.s = v`, consumes exactly these bytes and leaves the
error code OK. -/
theorem read_var_info_signed_roundtrip (state : trace_read_state) (w : Nat) (v : Int)
    (nb tb rest : List Byte)
    (hw : w = 1 ∨ w = 2 ∨ w = 4 ∨ w = 8)
    (hlo : -(2 : Int) ^ (8 * w - 1) ≤ v) (hhi : v < (2 : Int) ^ (8 * w - 1))
    (hok : state.error_code = TRACE_OK)
    (hnb : nb.length = 4) (htb : tb.length = 4)
    (hni : le_value nb < state.n_names) (hti : le_value tb < state.n_types)
    (hf : (state.types.getD (le_value tb) default).format = SIGNED)
    (hs : (state.types.getD (le_value tb) default).size = w)
    (hd : state.file.data = nb ++ (tb ++ (twos_complement w v ++ rest))) :
    (read_var_info state).1.value = trace_value.s v ∧
      (read_var_info state).2.error_code = TRACE_OK ∧
      (read_var_info state).2.file.data = rest := by
  have hlo' : -((2 ^ (8 * w - 1) : Nat) : Int) ≤ v := by push_cast; exact hlo
  have hhi' : v < ((2 ^ (8 * w - 1) : Nat) : Int) := by push_cast; exact hhi
  have hw0 : 0 < w := by rcases hw with h | h | h | h <;> omega
  rw [read_var_info_indices state nb tb _ hnb htb hd hni hti]
  rw [read_var_value_signed (state.types.getD (le_value tb) default)
    { name_index := le_value nb, type_index := le_value tb,
      size := (state.types.getD (le_value tb) default).size, has_buffer_size := 0,
      value := trace_value.u 0 }
    (set_data state (twos_complement w v ++ rest)) (twos_complement w v) rest hf
    (by simp only [hs]; exact hw) (by simp only [hs]; exact length_twos_complement w v) rfl]
  simp only [set_data_set_data, set_data_error_code, set_data_data, hs, hok,
    to_signed_twos_complement w hw0 v hlo' hhi', and_self]

/-- C2, witness: the single byte 0xFF at width 1 decodes to -1. -/
theorem read_var_info_signed_roundtrip_witness :
    twos_complement 1 (-1) = [0xFF] ∧
    ((read_var_info
        { example_state [0, 0, 0, 0, 0, 0, 0, 0, 0xFF, 7] with
          types := [{ name_index := 0, format := SIGNED, size := 1 }] }).1.value
          = trace_value.s (-1) ∧
      (read_var_info
        { example_state [0, 0, 0, 0, 0, 0, 0, 0, 0xFF, 7] with
          types := [{ name_index := 0, format := SIGNED, size := 1 }] }).2.error_code
          = TRACE_OK ∧
      (read_var_info
        { example_state [0, 0, 0, 0, 0, 0, 0, 0, 0xFF, 7] with
          types := [{ name_index := 0, format := SIGNED, size := 1 }] }).2.file.data = [7]) :=
  ⟨by decide,
    read_var_info_signed_roundtrip
      { example_state [0, 0, 0, 0, 0, 0, 0, 0, 0xFF, 7] with
        types := [{ name_index := 0, format := SIGNED, size := 1 }] }
      1 (-1) [0, 0, 0, 0] [0, 0, 0, 0] [7] (by decide) (by decide) (by decide) rfl rfl rfl
      (by decide) (by decide) rfl rfl (by decide)⟩

/-- C3, counterexample: a STATEMENT_ID tag followed by three of its eight
payload bytes, and a complete STATEMENT_ID entry with nothing after it, both
make `read_trace_point` return EOF, which is not ERROR. -/
theorem read_trace_point_truncated_not_error :
    (read_trace_point 16 (example_state [1, 42, 0, 0]) empty_point).map (fun r => r.1)
        = some TRACE_EOF ∧
      (read_trace_point 16 (example_state [1, 42, 0, 0, 0, 0, 0, 0, 0]) empty_point).map
        (fun r => r.1) = some TRACE_EOF ∧
      TRACE_EOF ≠ TRACE_ERROR := by
  decide

/-- C3, the amended claim: when the unread input is a proper, non-empty
prefix of the encoding of a well-formed trace point (the stream ends after
the first tag byte and before the closing END_ENTRY, inside a payload or
between two entries), `read_trace_point` returns EOF, the session's error
code is EOF, and `*result_ptr` is left alone. -/
theorem read_trace_point_truncated (sz : Nat) (state : trace_read_state)
    (rp : trace_point) (p : List Entry) (k : Nat)
    (hok : state.error_code = TRACE_OK) (hp : ∀ e ∈ p, entry_ok sz state e)
    (hk0 : 0 < k) (hk : k < (encode_point state.types p).length)
    (hd : state.file.data = (encode_point state.types p).take k) :
    ∃ state', read_trace_point sz state rp = some (TRACE_EOF, state', rp) ∧
      state'.error_code = TRACE_EOF := by
  have _ := hk0
  unfold read_trace_point
  apply loop_truncated sz rp p k _ state _ hok hp hk hd
  rw [hd, List.length_take]
  omega

/-- C3, witness: the example body cut after 12 of its 23 bytes, inside the
VARIABLE entry. -/
theorem read_trace_point_truncated_witness :
    ∃ state', read_trace_point 16 (example_state (example_body.take 12)) empty_point
        = some (TRACE_EOF, state', empty_point) ∧
      state'.error_code = TRACE_EOF :=
  read_trace_point_truncated 16 (example_state (example_body.take 12)) empty_point
    [Entry.statement 42, Entry.var 0 0 (trace_value.s (-7))] 12 rfl (by decide) (by decide)
    (by decide) (by decide)

/-- C4: when the unread input is empty at the start of a call (the stream
ends exactly at a trace-point boundary), `read_trace_point` returns EOF,
latches EOF in the session and leaves `*result_ptr` alone. -/
theorem read_trace_point_eof_at_boundary (sz : Nat) (state : trace_read_state)
    (rp : trace_point) (hok : state.error_code = TRACE_OK) (hd : state.file.data = []) :
    ∃ state', read_trace_point sz state rp = some (TRACE_EOF, state', rp) ∧
      state'.error_code = TRACE_EOF := by
  have _ := hok
  exact ⟨_, read_trace_point_nil sz state rp hd, rfl⟩

/-- C4, witness: the example session with no unread input. -/
theorem read_trace_point_eof_at_boundary_witness :
    ∃ state', read_trace_point 16 (example_state []) empty_point
        = some (TRACE_EOF, state', empty_point) ∧
      state'.error_code = TRACE_EOF :=
  read_trace_point_eof_at_boundary 16 (example_state []) empty_point rfl rfl

/-- C5: the bytes 0xFF and 0x80 lie beyond the `INVALID_TAG` sentinel, yet
read at a tag position by a session whose error code is OK they do not make
`read_trace_point` return ERROR: 0xFF is taken for the end of the input and
the call returns EOF, 0x80 leaves the error code untouched and the call
returns OK without storing a trace point.  A byte from `INVALID_TAG` to
0x7F does give ERROR. -/
theorem read_trace_point_high_tag_byte :
    INVALID_TAG ≤ 0x80 ∧ INVALID_TAG ≤ 0xFF ∧
    read_trace_point 16 (example_state [0xFF, 0]) example_point =
      some (TRACE_EOF, { example_state [0] with error_code := TRACE_EOF }, example_point) ∧
    read_trace_point 16 (example_state [0x80, 0]) example_point =
      some (TRACE_OK, example_state [0], example_point) ∧
    read_trace_point 16 (example_state [0x7F, 0]) example_point =
      some (TRACE_ERROR, { example_state [0] with error_code := TRACE_ERROR },
        example_point) := by
  decide

/-- C6: a VARIABLE entry whose SIGNED descriptor has size 3 does not fail:
`read_var_info` leaves the error code OK and reads no value byte, and
`read_trace_point` appends a variable whose value slot is zero and returns
OK. -/
theorem read_var_info_signed_bad_width :
    (read_var_info
        { example_state [0, 0, 0, 0, 0, 0, 0, 0, 0] with
          types := [{ name_index := 0, format := SIGNED, size := 3 }] }).2.error_code
          = TRACE_OK ∧
    (read_var_info
        { example_state [0, 0, 0, 0, 0, 0, 0, 0, 0] with
          types := [{ name_index := 0, format := SIGNED, size := 3 }] }).2.file.data = [0] ∧
    (read_trace_point 16
        { example_state [2, 0, 0, 0, 0, 0, 0, 0, 0, 0] with
          types := [{ name_index := 0, format := SIGNED, size := 3 }] } empty_point).map
        (fun r => (r.1, r.2.2.n_vars, r.2.2.vars)) =
      some (TRACE_OK, 1,
        [some { name_index := 0, type_index := 0, size := 3, has_buffer_size := 0,
                value := trace_value.u 0 }]) := by
  decide

/-- C7: for a BLOB descriptor of size 0 and the length `L = 0`,
`read_var_info` fails: the 4-byte length is consumed, the error code becomes
ERROR, and the enclosing `read_trace_point` returns ERROR. -/
theorem read_var_info_blob_empty :
    (read_var_info
        { example_state [0, 0, 0, 0, 0, 0, 0, 0, 0, 0, 0, 0, 0] with
          types := [{ name_index := 0, format := BLOB, size := 0 }] }).2.error_code
          = TRACE_ERROR ∧
    (read_var_info
        { example_state [0, 0, 0, 0, 0, 0, 0, 0, 0, 0, 0, 0, 0] with
          types := [{ name_index := 0, format := BLOB, size := 0 }] }).2.file.data = [0] ∧
    (read_trace_point 16
        { example_state [2, 0, 0, 0, 0, 0, 0, 0, 0, 0, 0, 0, 0, 0] with
          types := [{ name_index := 0, format := BLOB, size := 0 }] } empty_point).map
        (fun r => r.1) = some TRACE_ERROR := by
  decide

/-- C8: for a BLOB descriptor of fixed size `n > 0` (within the 32-bit
variable `size`), `read_var_info` reads no length prefix: it consumes exactly
the `n` bytes after the two index fields, returns `size = n` and a blob equal
to those bytes, and leaves the error code OK. -/
theorem read_var_info_blob_fixed (state : trace_read_state) (n : Nat)
    (nb tb blob rest : List Byte)
    (hn : 0 < n) (hn32 : n < 2 ^ 32)
    (hok : state.error_code = TRACE_OK)
    (hnb : nb.length = 4) (htb : tb.length = 4)
    (hni : le_value nb < state.n_names) (hti : le_value tb < state.n_types)
    (hf : (state.types.getD (le_value tb) default).format = BLOB)
    (hs : (state.types.getD (le_value tb) default).size = n)
    (hb : blob.length = n)
    (hd : state.file.data = nb ++ (tb ++ (blob ++ rest))) :
    (read_var_info state).1.size = n ∧
      (read_var_info state).1.value = trace_value.ptr blob ∧
      (read_var_info state).2.error_code = TRACE_OK ∧
      (read_var_info state).2.file.data = rest := by
  rw [read_var_info_indices state nb tb _ hnb htb hd hni hti]
  rw [read_var_value_blob_fixed (state.types.getD (le_value tb) default)
    { name_index := le_value nb, type_index := le_value tb,
      size := (state.types.getD (le_value tb) default).size, has_buffer_size := 0,
      value := trace_value.u 0 }
    (set_data state (blob ++ rest)) blob rest hf
    (by simp only [hs]; exact hn) (by simp only [hs]; exact hn32)
    (by simp only [hs]; exact hb) rfl]
  simp only [set_data_set_data, set_data_error_code, set_data_data, hs, hok, and_self]

/-- C8, witness: a three-byte blob. -/
theorem read_var_info_blob_fixed_witness :
    (read_var_info
        { example_state [0, 0, 0, 0, 0, 0, 0, 0, 5, 0, 0, 9] with
          types := [{ name_index := 0, format := BLOB, size := 3 }] }).1.size = 3 ∧
      (read_var_info
        { example_state [0, 0, 0, 0, 0, 0, 0, 0, 5, 0, 0, 9] with
          types := [{ name_index := 0, format := BLOB, size := 3 }] }).1.value
          = trace_value.ptr [5, 0, 0] ∧
      (read_var_info
        { example_state [0, 0, 0, 0, 0, 0, 0, 0, 5, 0, 0, 9] with
          types := [{ name_index := 0, format := BLOB, size := 3 }] }).2.error_code
          = TRACE_OK ∧
      (read_var_info
        { example_state [0, 0, 0, 0, 0, 0, 0, 0, 5, 0, 0, 9] with
          types := [{ name_index := 0, format := BLOB, size := 3 }] }).2.file.data = [9] :=
  read_var_info_blob_fixed
    { example_state [0, 0, 0, 0, 0, 0, 0, 0, 5, 0, 0, 9] with
      types := [{ name_index := 0, format := BLOB, size := 3 }] }
    3 [0, 0, 0, 0] [0, 0, 0, 0] [5, 0, 0] [9] (by decide) (by decide) rfl rfl rfl
    (by decide) (by decide) rfl rfl rfl (by decide)

/-- C9: for a descriptor of format UNSIGNED, FLOAT or POINTER and size `s`
with `1 ≤ s ≤ 8`, `read_var_info` consumes exactly the `s` value bytes and
returns `value.u` equal to the unsigned integer they form least significant
byte first, which is below `256 ^ s` (the high `8 - s` bytes are zero); the
result does not depend on which of the three formats it is. -/
theorem read_var_info_unsigned (state : trace_read_state) (s : Nat)
    (nb tb vb rest : List Byte)
    (hlo : 1 ≤ s) (hhi : s ≤ 8)
    (hnb : nb.length = 4) (htb : tb.length = 4)
    (hni : le_value nb < state.n_names) (hti : le_value tb < state.n_types)
    (hf : (state.types.getD (le_value tb) default).format = UNSIGNED ∨
      (state.types.getD (le_value tb) default).format = FLOAT ∨
      (state.types.getD (le_value tb) default).format = POINTER)
    (hs : (state.types.getD (le_value tb) default).size = s)
    (hvb : vb.length = s)
    (hd : state.file.data = nb ++ (tb ++ (vb ++ rest))) :
    (read_var_info state).1.value = trace_value.u (le_value vb) ∧
      le_value vb < 256 ^ s ∧
      (read_var_info state).1.size = s ∧
      (read_var_info state).2.error_code = state.error_code ∧
      (read_var_info state).2.file.data = rest := by
  rw [read_var_info_indices state nb tb _ hnb htb hd hni hti]
  rw [read_var_value_unsigned (state.types.getD (le_value tb) default)
    { name_index := le_value nb, type_index := le_value tb,
      size := (state.types.getD (le_value tb) default).size, has_buffer_size := 0,
      value := trace_value.u 0 }
    (set_data state (vb ++ rest)) vb rest hf
    (by simp only [hs]; exact hlo) (by simp only [hs]; exact hhi)
    (by simp only [hs]; exact hvb) rfl]
  have hlt := le_value_lt vb
  rw [hvb] at hlt
  simp only [set_data_set_data, set_data_error_code, set_data_data, hs, hlt, and_self]

/-- C9, witness: a two-byte POINTER value. -/
theorem read_var_info_unsigned_witness :
    (read_var_info
        { example_state [0, 0, 0, 0, 0, 0, 0, 0, 0x34, 0x12, 9] with
          types := [{ name_index := 0, format := POINTER, size := 2 }] }).1.value
          = trace_value.u (le_value [0x34, 0x12]) ∧
      le_value [0x34, 0x12] < 256 ^ 2 ∧
      (read_var_info
        { example_state [0, 0, 0, 0, 0, 0, 0, 0, 0x34, 0x12, 9] with
          types := [{ name_index := 0, format := POINTER, size := 2 }] }).1.size = 2 ∧
      (read_var_info
        { example_state [0, 0, 0, 0, 0, 0, 0, 0, 0x34, 0x12, 9] with
          types := [{ name_index := 0, format := POINTER, size := 2 }] }).2.error_code
          = TRACE_OK ∧
      (read_var_info
        { example_state [0, 0, 0, 0, 0, 0, 0, 0, 0x34, 0x12, 9] with
          types := [{ name_index := 0, format := POINTER, size := 2 }] }).2.file.data = [9] :=
  read_var_info_unsigned
    { example_state [0, 0, 0, 0, 0, 0, 0, 0, 0x34, 0x12, 9] with
      types := [{ name_index := 0, format := POINTER, size := 2 }] }
    2 [0, 0, 0, 0] [0, 0, 0, 0] [0x34, 0x12] [9] (by decide) (by decide) rfl rfl
    (by decide) (by decide) (by decide) rfl rfl (by decide)

/-- C10: for a VARIABLE entry whose name index is not below `n_names` or
whose type index is not below `n_types`, `read_var_info` sets the error code
to ERROR having consumed the two index fields and no value byte, and the
enclosing `read_trace_point` call (whatever well-formed entries came before
in the trace point) returns ERROR. -/
theorem read_var_info_index_out_of_range (sz : Nat) (state : trace_read_state)
    (rp : trace_point) (es : List Entry) (nb tb rest : List Byte)
    (hok : state.error_code = TRACE_OK) (hes : ∀ e ∈ es, entry_ok sz state e)
    (hnb : nb.length = 4) (htb : tb.length = 4)
    (hbad : state.n_names ≤ le_value nb ∨ state.n_types ≤ le_value tb)
    (hd : state.file.data =
      encode_entries state.types es ++ (tag_byte VARIABLE :: (nb ++ (tb ++ rest)))) :
    ((read_var_info (set_data state (nb ++ (tb ++ rest)))).2.error_code = TRACE_ERROR ∧
      (read_var_info (set_data state (nb ++ (tb ++ rest)))).2.file.data = rest) ∧
    ∃ state', read_trace_point sz state rp = some (TRACE_ERROR, state', rp) ∧
      state'.error_code = TRACE_ERROR ∧ state'.file.data = rest := by
  constructor
  · rw [read_var_info_bad_index (set_data state (nb ++ (tb ++ rest))) nb tb rest hnb htb rfl
      (by simpa using hbad)]
    exact ⟨rfl, rfl⟩
  · obtain ⟨fuel, _, hrun⟩ := read_trace_point_after_entries sz state rp es _ hok hes hd
    have hfr := after_entries_frame state.types es state empty_point
    have hbad' : (set_data (set_data (apply_entries state.types es state empty_point).1
          (tag_byte VARIABLE :: (nb ++ (tb ++ rest)))) (nb ++ (tb ++ rest))).n_names
          ≤ le_value nb ∨
        (set_data (set_data (apply_entries state.types es state empty_point).1
          (tag_byte VARIABLE :: (nb ++ (tb ++ rest)))) (nb ++ (tb ++ rest))).n_types
          ≤ le_value tb := by
      unfold trace_read_state.n_names trace_read_state.n_types at hbad ⊢
      simp only [set_data, hfr.1, hfr.2.1]
      exact hbad
    rw [hrun, loop_VARIABLE sz fuel _ _ rp (nb ++ (tb ++ rest))
      (by rw [set_data_error_code, hfr.2.2.1, hok]) rfl,
      read_var_info_bad_index _ nb tb rest hnb htb rfl hbad']
    exact ⟨_, rfl, rfl, rfl⟩

/-- C10, witness: a VARIABLE entry naming type 1 in a session with one
type, after a statement entry. -/
theorem read_var_info_index_out_of_range_witness :
    ((read_var_info (set_data
        (example_state [1, 42, 0, 0, 0, 0, 0, 0, 0, 2, 0, 0, 0, 0, 1, 0, 0, 0, 7, 7])
        [0, 0, 0, 0, 1, 0, 0, 0, 7, 7])).2.error_code = TRACE_ERROR ∧
      (read_var_info (set_data
        (example_state [1, 42, 0, 0, 0, 0, 0, 0, 0, 2, 0, 0, 0, 0, 1, 0, 0, 0, 7, 7])
        [0, 0, 0, 0, 1, 0, 0, 0, 7, 7])).2.file.data = [7, 7]) ∧
    ∃ state', read_trace_point 16
        (example_state [1, 42, 0, 0, 0, 0, 0, 0, 0, 2, 0, 0, 0, 0, 1, 0, 0, 0, 7, 7])
        empty_point = some (TRACE_ERROR, state', empty_point) ∧
      state'.error_code = TRACE_ERROR ∧ state'.file.data = [7, 7] :=
  read_var_info_index_out_of_range 16
    (example_state [1, 42, 0, 0, 0, 0, 0, 0, 0, 2, 0, 0, 0, 0, 1, 0, 0, 0, 7, 7])
    empty_point [Entry.statement 42] [0, 0, 0, 0] [1, 0, 0, 0] [7, 7] rfl (by decide) rfl rfl
    (by decide) (by decide)

/-- C11: on the valid header whose name blob is `long_blob` (2^32 bytes, one
NUL byte, so one name) and whose type table is empty, whatever follows the
header and with every allocation granted, `start_reading` does not succeed:
its first scan compares a 32-bit counter with the 64-bit `n_chars` and never
ends. -/
theorem start_reading_long_blob_no_return (ssz tsz : Nat)
    (decode : List Byte → type_description) (body : List Byte) :
    long_blob.count 0 = 1 ∧
    start_reading (fun _ => true) ssz tsz decode
        (some (example_file (encode_header long_blob 0 [] ++ body)))
      = start_result.no_return := by
  constructor
  · unfold long_blob
    rw [List.count_append, List.count_replicate]
    decide
  · exact start_reading_huge_blob (fun _ => true) ssz tsz decode _ long_blob
      (le_bytes 4 0 ++ ([] ++ body)) (fun _ => rfl)
      (by rw [long_blob_length]) (by rw [long_blob_length]; norm_num)
      (by unfold encode_header example_file; simp only [List.append_assoc])

/-- C12: on the complete header with the names `x`, `y` and one descriptor
whose format field holds 0xFFFFFFFF, a format not below `INVALID_FORMAT`,
`start_reading` does not fail: the validation loop compares the format as a
signed integer, finds -1 below the sentinel, and the call returns a session
with error code OK whose type dictionary holds that descriptor. -/
theorem start_reading_accepts_format_all_ones :
    (∃ t ∈ decode_types 12 example_decode 1 all_ones_type_bytes,
      INVALID_FORMAT ≤ t.format) ∧
    start_reading (fun _ => true) 64 12 example_decode
        (some (example_file (encode_header example_blob 1 all_ones_type_bytes)))
      = start_result.session
          (opened_state [{ name_index := 0, format := 0xFFFFFFFF, size := 4 }] []) ∧
    (opened_state [{ name_index := 0, format := 0xFFFFFFFF, size := 4 }] []).error_code
      = TRACE_OK := by
  refine ⟨⟨_, List.mem_cons_self _ _, by decide⟩, by decide, by decide⟩

/-- C13: two inputs that end before the header is complete on which
`start_reading` does not return `NULL`.  On the nine bytes that announce a
name blob of 2^62 bytes and hold one of them, with an allocator that refuses
requests of 2^40 bytes or more, the call crashes: the result of `malloc` is
not tested and `fread` stores the byte through the null pointer.  On the
input that ends right after the 2^32 bytes of `long_blob`, before the type
count, with every allocation granted, the call never returns: the first scan
does not end. -/
theorem start_reading_truncated_no_null (ssz tsz : Nat)
    (decode : List Byte → type_description) :
    start_reading (fun n => decide (n < 2 ^ 40)) 64 12 example_decode
        (some (example_file [0, 0, 0, 0, 0, 0, 0, 0x40, 120]))
      = start_result.crash ∧
    start_reading (fun _ => true) ssz tsz decode
        (some (example_file (le_bytes 8 (2 ^ 32) ++ long_blob)))
      = start_result.no_return := by
  constructor
  · decide
  · exact start_reading_huge_blob (fun _ => true) ssz tsz decode _ long_blob []
      (fun _ => rfl)
      (by rw [long_blob_length]) (by rw [long_blob_length]; norm_num)
      (by rw [long_blob_length]; unfold example_file; simp only [List.append_nil])

/-- C16: a successful call whose counts exceed the capacities.  On the
session `start_reading` opens on the example header followed by the byte
0x90, the first call of `read_trace_point`, entered with `*result_ptr`
holding a trace point with `n_vars = 1`, returns OK and leaves `*result_ptr`
as it was, while the session's `var_buffer` has capacity 0. -/
theorem read_trace_point_ok_over_capacity :
    start_reading (fun _ => true) 64 12 example_decode
        (some (example_file (example_header ++ [0x90])))
      = start_result.session (example_state [0x90]) ∧
    read_trace_point 16 (example_state [0x90]) example_point
      = some (TRACE_OK, example_state [], example_point) ∧
    ¬ within_capacity example_point (example_state []) := by
  refine ⟨by decide, by decide, ?_⟩
  unfold within_capacity
  decide

/-- C17: on a session whose only type descriptor has the format
`INVALID_FORMAT` (or the unrecognized value 9), `read_var_info` consumes the
two index fields and nothing else but leaves the error code OK, and
`read_trace_point` appends the variable and returns OK. -/
theorem read_var_info_invalid_format :
    (read_var_info
        { example_state [0, 0, 0, 0, 0, 0, 0, 0, 0] with
          types := [{ name_index := 0, format := INVALID_FORMAT, size := 4 }] }).2
      = { example_state [0] with
          types := [{ name_index := 0, format := INVALID_FORMAT, size := 4 }] } ∧
    (read_var_info
        { example_state [0, 0, 0, 0, 0, 0, 0, 0, 0] with
          types := [{ name_index := 0, format := 9, size := 4 }] }).2.error_code = TRACE_OK ∧
    (read_trace_point 16
        { example_state [2, 0, 0, 0, 0, 0, 0, 0, 0, 0] with
          types := [{ name_index := 0, format := INVALID_FORMAT, size := 4 }] }
        empty_point).map (fun r => (r.1, r.2.2.n_vars)) = some (TRACE_OK, 1) := by
  decide

/-- C18: on the input byte 0x80 `read_trace_point` reaches no `END_ENTRY`
and returns OK, yet `*result_ptr` still holds what it held before the call,
which is not the (empty) trace point accumulated in the call. -/
theorem read_trace_point_ok_without_store :
    read_trace_point 16 (example_state [0x80, 0]) example_point
      = some (TRACE_OK, example_state [0], example_point) ∧
    example_point ≠
      { empty_point with
        vars := (example_state [0]).var_buffer, sizes := (example_state [0]).size_buffer,
        aux := (example_state [0]).aux_buffer } := by
  decide

/-- C19: a session returned by `start_reading` in which `read_var_info`
takes the default arm of the format switch.  On the header with the names
`x`, `y` and one descriptor whose format field holds 0x80000000, followed by
a VARIABLE entry of that type, `start_reading` returns a session, its type
dictionary does not satisfy `types_valid`, and `read_var_info`, called after
the tag byte, looks that descriptor up and leaves the format switch through
its last arm: the record comes back with the value slot zero, none of the
four value bytes is consumed and the error code is still OK. -/
theorem read_var_info_default_arm_reached :
    start_reading (fun _ => true) 64 12 example_decode
        (some (example_file (encode_header example_blob 1 top_bit_type_bytes ++
          [2, 0, 0, 0, 0, 0, 0, 0, 0, 0xF9, 0xFF, 0xFF, 0xFF, 0])))
      = start_result.session
          (opened_state [{ name_index := 0, format := 0x80000000, size := 4 }]
            [2, 0, 0, 0, 0, 0, 0, 0, 0, 0xF9, 0xFF, 0xFF, 0xFF, 0]) ∧
    ¬ types_valid
        (opened_state [{ name_index := 0, format := 0x80000000, size := 4 }]
          [2, 0, 0, 0, 0, 0, 0, 0, 0, 0xF9, 0xFF, 0xFF, 0xFF, 0]) ∧
    (read_tag
        (opened_state [{ name_index := 0, format := 0x80000000, size := 4 }]
          [2, 0, 0, 0, 0, 0, 0, 0, 0, 0xF9, 0xFF, 0xFF, 0xFF, 0]))
      = (VARIABLE,
          opened_state [{ name_index := 0, format := 0x80000000, size := 4 }]
            [0, 0, 0, 0, 0, 0, 0, 0, 0xF9, 0xFF, 0xFF, 0xFF, 0]) ∧
    read_var_info
        (opened_state [{ name_index := 0, format := 0x80000000, size := 4 }]
          [0, 0, 0, 0, 0, 0, 0, 0, 0xF9, 0xFF, 0xFF, 0xFF, 0])
      = read_var_value { name_index := 0, format := 0x80000000, size := 4 }
          { name_index := 0, type_index := 0, size := 4, has_buffer_size := 0,
            value := trace_value.u 0 }
          (opened_state [{ name_index := 0, format := 0x80000000, size := 4 }]
            [0xF9, 0xFF, 0xFF, 0xFF, 0]) ∧
    read_var_value { name_index := 0, format := 0x80000000, size := 4 }
        { name_index := 0, type_index := 0, size := 4, has_buffer_size := 0,
          value := trace_value.u 0 }
        (opened_state [{ name_index := 0, format := 0x80000000, size := 4 }]
          [0xF9, 0xFF, 0xFF, 0xFF, 0])
      = ({ name_index := 0, type_index := 0, size := 4, has_buffer_size := 0,
           value := trace_value.u 0 },
         opened_state [{ name_index := 0, format := 0x80000000, size := 4 }]
           [0xF9, 0xFF, 0xFF, 0xFF, 0]) := by
  refine ⟨by decide, ?_, by decide, by decide, by decide⟩
  unfold types_valid
  decide

/-- C20: for every session state, accumulator and finite input,
`read_trace_point` returns: an iteration of its loop that does not leave the
loop has consumed the tag byte, so with more iterations allowed than there
are unread bytes the loop returns, and allowing still more does not change
what it returns. -/
theorem read_trace_point_terminates (sz : Nat) (state : trace_read_state)
    (result rp : trace_point) (fuel : Nat) (h : state.file.data.length < fuel) :
    ((read_tag state).2.error_code = TRACE_OK →
      (read_tag state).2.file.data.length < state.file.data.length) ∧
    (∃ r, read_trace_point_loop sz fuel state result rp = some r ∧
      ∀ extra, read_trace_point_loop sz (fuel + extra) state result rp = some r) ∧
    (∃ r, read_trace_point sz state rp = some r) := by
  refine ⟨read_tag_consumes state, ?_, ?_⟩
  · obtain ⟨code, s', tp, heq, _⟩ := loop_returns sz rp fuel state result h
    exact ⟨_, heq, fun extra => loop_fuel_add sz rp fuel extra state result _ heq⟩
  · obtain ⟨code, s', tp, heq, _⟩ := read_trace_point_returns sz state rp
    exact ⟨_, heq⟩

/-- C20, witness: the example body, 23 bytes, with 24 iterations allowed. -/
theorem read_trace_point_terminates_witness :
    ((read_tag (example_state example_body)).2.error_code = TRACE_OK →
      (read_tag (example_state example_body)).2.file.data.length
        < (example_state example_body).file.data.length) ∧
    (∃ r, read_trace_point_loop 16 24 (example_state example_body) empty_point empty_point
        = some r ∧
      ∀ extra, read_trace_point_loop 16 (24 + extra) (example_state example_body) empty_point
        empty_point = some r) ∧
    (∃ r, read_trace_point 16 (example_state example_body) empty_point = some r) :=
  read_trace_point_terminates 16 (example_state example_body) empty_point empty_point 24
    (by decide)

end TraceDB
